import Mathlib

/-!
Verification development for the SEC master-index ingest pipeline
(`SECDailyIndices` component): streaming line splitting, two-pass row
counting and parsing, dimension normalization, chunk planning and the
chunked upload driver.

The embedding mirrors the TypeScript source.  Strings are modelled by
`String` and manipulated through their character lists with structural
helpers that reproduce the JavaScript operations used by the source
(`split`, `trim`, `includes`, `startsWith`, `parseInt`, regular
expressions `/^\d+\|/`, `/^(\d+)-(\d+)-(\d+)\.(\w+)$/`, `Date.UTC`).
Numbers are `Nat`/`Int`; JavaScript `NaN` propagation is modelled with
`Option`.  The streamed reads of the source accumulate a pending buffer
and split on a newline exactly as splitting the whole decoded content
once, so both passes are modelled over the full content string.
-/

/-! ## JavaScript text primitives -/

/-- Model of JavaScript `String.prototype.split` with a one-character
separator: splitting `"a\nb\n"` on a newline gives `["a", "b", ""]`. -/
def splitOnChar (c : Char) : List Char → List (List Char)
  | [] => [[]]
  | x :: xs =>
    let r := splitOnChar c xs
    if x = c then [] :: r
    else
      match r with
      | [] => [[x]]
      | h :: t => (x :: h) :: t

/-- Model of JavaScript `String.prototype.includes` for a substring
pattern (used by the source for `line.includes('---')`). -/
def listContainsSub (pat : List Char) : List Char → Bool
  | [] => List.isPrefixOf pat []
  | x :: xs => List.isPrefixOf pat (x :: xs) || listContainsSub pat xs

/-- Model of JavaScript `String.prototype.trim` (the source only trims
fields made of ASCII text; the JavaScript whitespace class is modelled
by `Char.isWhitespace`). -/
def jsTrim (s : String) : String :=
  String.mk (((s.data.dropWhile Char.isWhitespace).reverse.dropWhile Char.isWhitespace).reverse)

/-- Helper for `digitsThenPipe`: after the leading digit, accept more
digits until a pipe character is found. -/
def digitsThenPipeAux : List Char → Bool
  | [] => false
  | c :: r => if c = '|' then true else c.isDigit && digitsThenPipeAux r

/-- Model of the regular expression test `/^\d+\|/.test(line)`: one or
more digits followed immediately by a pipe, anchored at the start. -/
def digitsThenPipe : List Char → Bool
  | [] => false
  | c :: r => c.isDigit && digitsThenPipeAux r

/-- Numeric value of a list of decimal digit characters (the digit-run
part of JavaScript `parseInt(s, 10)`). -/
def digitsNatVal (l : List Char) : Nat :=
  l.foldl (fun a c => 10 * a + (c.toNat - 48)) 0

/-- Model of JavaScript `parseInt(s, 10)`: skip leading whitespace, an
optional sign, then a maximal run of decimal digits; `none` models the
`NaN` result when no digits are found. -/
def jsParseInt (s : String) : Option Int :=
  let l := s.data.dropWhile Char.isWhitespace
  let neg : Bool := match l with | c :: _ => c == '-' | [] => false
  let signed : Bool := match l with | c :: _ => c == '-' || c == '+' | [] => false
  let l2 := if signed then l.tail else l
  let ds := l2.takeWhile Char.isDigit
  if ds = [] then none
  else some (if neg then -(digitsNatVal ds : Int) else (digitsNatVal ds : Int))

/-- Model of JavaScript `parseInt` on a string that is known to start
with a digit run (the CIK field, guarded by the data-row gate, and the
digit groups produced by the accession regular expression). -/
def parseNatPrefix (s : String) : Nat :=
  digitsNatVal (s.data.takeWhile Char.isDigit)

/-- Model of JavaScript `String.prototype.substring(a, b)` (indices are
clamped to the length and swapped when out of order). -/
def jsSubstring (s : String) (a b : Nat) : String :=
  let n := s.data.length
  let a' := min a n
  let b' := min b n
  let lo := min a' b'
  let hi := max a' b'
  String.mk ((s.data.drop lo).take (hi - lo))

/-! ## Date arithmetic (`Date.UTC`, `dateToDays`)

The source computes `Math.floor((Date.UTC(y, m, d) - EPOCH) / MS_PER_DAY)`
with `EPOCH = Date.UTC(1970, 0, 1) = 0`.  `Date.UTC` is modelled after
the ECMAScript `MakeDay` operation, which is exact in the relevant range,
so the quotient below is the `MakeDay` value itself. -/

/-- Gregorian leap-year test; this is both ECMAScript's `InLeapYear`
(via `DaysInYear`) and the standard Gregorian rule.  `%` on `Int` is
Euclidean remainder, which agrees with ECMAScript's `modulo` for the
positive divisors used here. -/
def leapYear (y : Int) : Bool :=
  if y % 4 = 0 ∧ (y % 100 ≠ 0 ∨ y % 400 = 0) then true else false

/-- ECMAScript `DayFromYear`: day number of January 1 of year `y`,
counted from 1970-01-01.  `/` on `Int` is Euclidean division, which
agrees with ECMAScript's `floor` division for positive divisors. -/
def dayFromYear (y : Int) : Int :=
  365 * (y - 1970) + (y - 1969) / 4 - (y - 1901) / 100 + (y - 1601) / 400

/-- Cumulative days before 0-based month `mn` in a non-leap year. -/
def monthStartBase : Nat → Int
  | 0 => 0
  | 1 => 31
  | 2 => 59
  | 3 => 90
  | 4 => 120
  | 5 => 151
  | 6 => 181
  | 7 => 212
  | 8 => 243
  | 9 => 273
  | 10 => 304
  | 11 => 334
  | _ => 365

/-- Cumulative days before 0-based month `mn`, adjusted for leap years. -/
def monthStart (leap : Bool) (mn : Nat) : Int :=
  monthStartBase mn + (if leap ∧ 2 ≤ mn then 1 else 0)

/-- ECMAScript `Date.UTC(y, m, d)` expressed in whole days since the
epoch (`MakeDay`): months outside `0..11` roll the year, integer years
`0..99` are interpreted as `1900 + y`. -/
def dateUTCDays (y m d : Int) : Int :=
  let yr := if 0 ≤ y ∧ y ≤ 99 then 1900 + y else y
  let ym := yr + m / 12
  let mn := (m % 12).toNat
  dayFromYear ym + monthStart (leapYear ym) mn + d - 1

/-- Source `dateToDays` (part_001 lines 296-303): parse `YYYY`, `MM`,
`DD` substrings with `parseInt`, convert the 1-based month to 0-based,
and take whole days since the epoch.  `none` models the `NaN` result
when one of the substrings has no digits. -/
def dateToDays (yyyymmdd : String) : Option Int :=
  match jsParseInt (jsSubstring yyyymmdd 0 4), jsParseInt (jsSubstring yyyymmdd 4 6),
        jsParseInt (jsSubstring yyyymmdd 6 8) with
  | some y, some mo, some d => some (dateUTCDays y (mo - 1) d)
  | _, _, _ => none

/-! ## Accession parsing -/

/-- Decoded accession number: `{filer, seq, ext}`. -/
structure Accession where
  filer : Nat
  seq : Nat
  ext : String
  deriving DecidableEq

/-- Character class `\w` of JavaScript regular expressions. -/
def isWordChar (c : Char) : Bool := c.isAlphanum || c = '_'

/-- Match of `/^(\d+)-(\d+)-(\d+)\.(\w+)$/` against a filename.  The
digit and word classes exclude `-` and `.`, so the backtracking regular
expression match is equivalent to this deterministic maximal-run scan:
each `\d+` group must be the maximal digit run before the separator,
and `(\w+)$` must consume the whole remainder after the dot. -/
def matchAccessionFilename (l : List Char) : Option Accession :=
  let d1 := l.takeWhile Char.isDigit
  let r1 := l.dropWhile Char.isDigit
  if d1 = [] then none else
  match r1 with
  | '-' :: r2 =>
    let d2 := r2.takeWhile Char.isDigit
    let r3 := r2.dropWhile Char.isDigit
    if d2 = [] then none else
    match r3 with
    | '-' :: r4 =>
      let d3 := r4.takeWhile Char.isDigit
      let r5 := r4.dropWhile Char.isDigit
      if d3 = [] then none else
      match r5 with
      | '.' :: r6 =>
        if r6 ≠ [] && r6.all isWordChar then
          some ⟨digitsNatVal d1, digitsNatVal d3, String.mk r6⟩
        else none
      | _ => none
    | _ => none
  | _ => none

/-- Source `parseAccession` (part_001 lines 280-294): take the final
path segment and match the accession pattern; `filer` comes from group
1, `seq` from group 3, `ext` from group 4. -/
def parseAccession (filePath : String) : Option Accession :=
  let parts := splitOnChar '/' filePath.data
  matchAccessionFilename (parts.getLastD [])

/-! ## Line classification and the two passes -/

/-- Header/noise test of the header-skip state: starts with `CIK|`,
contains `---`, or is blank after trimming. -/
def headerNoise (line : String) : Bool :=
  List.isPrefixOf "CIK|".data line.data || listContainsSub "---".data line.data ||
    line.data.all Char.isWhitespace

/-- Data-row gate shared by both passes:
`line.includes('|') && /^\d+\|/.test(line)`. -/
def isDataRow (line : String) : Bool :=
  line.data.contains '|' && digitsThenPipe line.data

/-- One filing record as prepared for upload (`PreparedImportData`
filings element).  `filed_date` is `Option Int` because `dateToDays`
can produce `NaN`. -/
structure Filing where
  cik : Nat
  form_type_id : Nat
  filed_date : Option Int
  accession_filer : Nat
  accession_seq : Nat
  ext_id : Nat
  deriving DecidableEq

/-- Lookup in an insertion-ordered map with `String` keys (model of the
source's `Map<string, number>`; keys are unique by construction since
insertion is guarded by `has`). -/
def lookupStrKey (m : List (String × Nat)) (k : String) : Option Nat :=
  (m.find? (fun p => p.fst == k)).map (fun p => p.snd)

/-- Lookup in an insertion-ordered map with `Nat` keys (model of the
source's `Map<number, string>` for companies). -/
def lookupNatKey (m : List (Nat × String)) (k : Nat) : Option String :=
  (m.find? (fun p => p.fst == k)).map (fun p => p.snd)

/-- Mutable state of one `processFile` run (part_001 lines 305-464):
the header-skip flag, the three dimension dictionaries in insertion
order, the emitted filing records in file order, the processed-row
count and the error list (which row processing never touches). -/
structure ParseState where
  headerSkipped : Bool
  formTypes : List (String × Nat)
  extensions : List (String × Nat)
  companies : List (Nat × String)
  records : List Filing
  rowsProcessed : Nat
  errors : List String
  deriving DecidableEq

/-- Initial `processFile` state. -/
def initParseState : ParseState := ⟨false, [], [], [], [], 0, []⟩

/-- Body of the `processFile` data-row handling (part_001 lines
378-423): gate, field split, field-count check, accession parse,
dimension interning and record emission.  A failed check leaves the
state unchanged (`continue`). -/
def processDataRow (st : ParseState) (line : String) : ParseState :=
  if ¬ isDataRow line then st else
  let parts := (splitOnChar '|' line.data).map String.mk
  if parts.length < 5 then st else
  let cik := parseNatPrefix (parts.getD 0 "")
  let companyName := jsTrim (parts.getD 1 "")
  let formType := jsTrim (parts.getD 2 "")
  let dateFiled := jsTrim (parts.getD 3 "")
  let filePath := jsTrim (parts.getD 4 "")
  match parseAccession filePath with
  | none => st
  | some acc =>
    let companies' := if (lookupNatKey st.companies cik).isSome then st.companies
                      else st.companies ++ [(cik, companyName)]
    let formTypes' := if (lookupStrKey st.formTypes formType).isSome then st.formTypes
                      else st.formTypes ++ [(formType, st.formTypes.length + 1)]
    let extensions' := if (lookupStrKey st.extensions acc.ext).isSome then st.extensions
                       else st.extensions ++ [(acc.ext, st.extensions.length + 1)]
    let formTypeId := (lookupStrKey formTypes' formType).getD 0
    let extId := (lookupStrKey extensions' acc.ext).getD 0
    { st with
      companies := companies'
      formTypes := formTypes'
      extensions := extensions'
      records := st.records ++ [⟨cik, formTypeId, dateToDays dateFiled, acc.filer, acc.seq, extId⟩]
      rowsProcessed := st.rowsProcessed + 1 }

/-- One line of the `processFile` loop: header-skip sub-machine, then
data-row handling.  When the header-skip state sees the first data row
it sets the flag and falls through to process that same line. -/
def processLine (st : ParseState) (line : String) : ParseState :=
  if st.headerSkipped then processDataRow st line
  else if headerNoise line then st
  else if isDataRow line then processDataRow { st with headerSkipped := true } line
  else st

/-- Test-mode row limit check (`rowsProcessed >= rowLimit`); `none`
models `Infinity` (complete run). -/
def limitReached (limit : Option Nat) (n : Nat) : Bool :=
  match limit with
  | none => false
  | some l => decide (l ≤ n)

/-- The `processFile` line loop with the test-mode row-limit check at
the top of each iteration. -/
def processLines (limit : Option Nat) : ParseState → List String → ParseState
  | st, [] => st
  | st, l :: ls =>
    if limitReached limit st.rowsProcessed then st
    else processLines limit (processLine st l) ls

/-- Complete lines yielded by the streaming line splitter over the whole
decoded content: every `\n`-separated segment except the trailing
pending buffer. -/
def fileLines (content : String) : List String :=
  ((splitOnChar '\n' content.data).dropLast).map String.mk

/-- The pending buffer left at end-of-stream (the segment after the
last newline; empty when the content ends with a newline). -/
def fileTrailingBuffer (content : String) : String :=
  String.mk ((splitOnChar '\n' content.data).getLastD [])

/-- Source `processFile` (part_001 lines 305-464) over the decoded
content.  Note the source's read loop breaks on end-of-stream without
processing the pending buffer, so only `fileLines` are consumed. -/
def processFile (limit : Option Nat) (content : String) : ParseState :=
  processLines limit initParseState (fileLines content)

/-- State of the Row Counter pass (`handleFileSelect`). -/
structure CountState where
  headerSkipped : Bool
  rowCount : Nat
  deriving DecidableEq

/-- One line of the `handleFileSelect` counting loop (part_001 lines
203-220): the same header-skip sub-machine, then the data-row count. -/
def countLine (st : CountState) (line : String) : CountState :=
  if st.headerSkipped then
    if isDataRow line then ⟨true, st.rowCount + 1⟩ else st
  else if headerNoise line then st
  else if isDataRow line then ⟨true, st.rowCount + 1⟩ else st

/-- Source `handleFileSelect` row counting (part_001 lines 195-228),
including the end-of-stream check that counts a non-empty pending
buffer when it passes the data-row test. -/
def handleFileSelectRowCount (content : String) : Nat :=
  let st := (fileLines content).foldl countLine ⟨false, 0⟩
  let buf := fileTrailingBuffer content
  if buf.data ≠ [] && isDataRow buf then st.rowCount + 1 else st.rowCount

/-! ## Prepared import data -/

/-- Form-type dictionary entry as prepared for upload. -/
structure FormTypeEntry where
  id : Nat
  code : String
  deriving DecidableEq

/-- Extension dictionary entry as prepared for upload. -/
structure ExtensionEntry where
  id : Nat
  ext : String
  deriving DecidableEq

/-- Company record (natural key `cik`, first-seen name). -/
structure Company where
  cik : Nat
  name : String
  deriving DecidableEq

/-- Source `PreparedImportData` (part_001 lines 31-43). -/
structure PreparedImportData where
  formTypes : List FormTypeEntry
  extensions : List ExtensionEntry
  companies : List Company
  filings : List Filing
  deriving DecidableEq

/-- Structured data built at the end of `processFile` (part_001 lines
431-446).  The source serializes each filing to a tab-separated row and
re-parses it with `parseInt`; that round trip is the identity on the
integer fields modelled here, so it is elided. -/
def preparedImportOf (st : ParseState) : PreparedImportData :=
  { formTypes := st.formTypes.map (fun p => ⟨p.snd, p.fst⟩)
    extensions := st.extensions.map (fun p => ⟨p.snd, p.fst⟩)
    companies := st.companies.map (fun p => ⟨p.fst, p.snd⟩)
    filings := st.records }

/-! ## Chunk planner and upload driver -/

/-- Model of `Math.ceil(n / s)` on the list lengths involved (exact for
the integer ranges of this pipeline). -/
def jsCeilDiv (n s : Nat) : Nat := (n + s - 1) / s

/-- Number of company chunks (`Math.ceil(companies.length / CHUNK_SIZE)`). -/
def companyChunksOf (prep : PreparedImportData) (chunkSize : Nat) : Nat :=
  jsCeilDiv prep.companies.length chunkSize

/-- Number of filing chunks (`Math.ceil(filings.length / CHUNK_SIZE)`). -/
def filingChunksOf (prep : PreparedImportData) (chunkSize : Nat) : Nat :=
  jsCeilDiv prep.filings.length chunkSize

/-- Total chunk count `1 + companyChunks + filingChunks`. -/
def totalChunksOf (prep : PreparedImportData) (chunkSize : Nat) : Nat :=
  1 + companyChunksOf prep chunkSize + filingChunksOf prep chunkSize

/-- Local-to-server ID remapping built after chunk 1 (source state
`idMappings`); assoc lists model the `Record<number, number>` objects. -/
structure IdMaps where
  formTypeIdMap : List (Nat × Nat)
  extIdMap : List (Nat × Nat)
  deriving DecidableEq

/-- Cumulative per-category uploaded counts (source state
`uploadedCounts`). -/
structure UploadedCounts where
  formTypes : Nat
  extensions : Nat
  companies : Nat
  filings : Nat
  deriving DecidableEq

/-- Body of one `bulk-insert` request. -/
structure RequestBody where
  formTypes : List String
  extensions : List String
  companies : List Company
  filings : List Filing
  deriving DecidableEq

/-- Server behaviour for one request: a parsed JSON success body (with
the dimension maps and optional `inserted` count; absent keys are the
empty list / `none`), a non-`ok` HTTP response whose JSON body may carry
an `error` message, or a thrown network error. -/
inductive NetResponse where
  | ok (formTypeMap : List (String × Nat)) (extensionMap : List (String × Nat))
      (inserted : Option Nat)
  | httpError (errMsg : Option String)
  | netError (msg : String)
  deriving DecidableEq

/-- Error thrown by `uploadSingleChunk`, instrumented with the request
body that was issued before the failure (`none` when the chunk failed
before any request was sent). -/
structure UploadError where
  msg : String
  request : Option RequestBody
  deriving DecidableEq

/-- Successful result of `uploadSingleChunk`, instrumented with the
request body and carrying the updated `idMappings`/`uploadedCounts`
component state. -/
structure ChunkOutcome where
  inserted : Nat
  hasMore : Bool
  request : RequestBody
  idMappings : Option IdMaps
  counts : UploadedCounts
  deriving DecidableEq

/-- Lookup in a `Record<string, number>` response map. -/
def lookupStrMap (m : List (String × Nat)) (k : String) : Option Nat :=
  (m.find? (fun p => p.fst == k)).map (fun p => p.snd)

/-- Model of the JavaScript truthiness guard `if (map[k]) ...` on a
numeric record: an absent key or a value of `0` both fail the guard. -/
def truthyLookupStr (m : List (String × Nat)) (k : String) : Option Nat :=
  match lookupStrMap m k with
  | some v => if v = 0 then none else some v
  | none => none

/-- Lookup in a `Record<number, number>` mapping object. -/
def lookupNatMap (m : List (Nat × Nat)) (k : Nat) : Option Nat :=
  (m.find? (fun p => p.fst == k)).map (fun p => p.snd)

/-- Model of the JavaScript fallback `map[k] || k`: an absent key or a
stored `0` yields the unchanged local ID `k`. -/
def jsOrLookup (m : List (Nat × Nat)) (k : Nat) : Nat :=
  match lookupNatMap m k with
  | some v => if v = 0 then k else v
  | none => k

/-- Model of `x || fallback` on an optional numeric JSON field. -/
def jsOrNat (x : Option Nat) (fallback : Nat) : Nat :=
  match x with
  | some v => if v = 0 then fallback else v
  | none => fallback

/-- Rewrite of one filing's dimension references before transmission
(part_001 lines 537-541). -/
def remapFiling (maps : IdMaps) (f : Filing) : Filing :=
  { f with
    form_type_id := jsOrLookup maps.formTypeIdMap f.form_type_id
    ext_id := jsOrLookup maps.extIdMap f.ext_id }

/-- Source `uploadSingleChunk` (part_001 lines 467-562).  The network
round trip is abstracted by the `resp` argument; React state updates
(`setIdMappings`, `setUploadedCounts`) appear as the returned
`idMappings`/`counts`.  The driver only calls this with `chunkNum ≥ 1`,
so the `Nat` subtractions in the slice offsets are exact. -/
def uploadSingleChunk (prep : PreparedImportData) (chunkSize : Nat)
    (idMappings : Option IdMaps) (counts : UploadedCounts)
    (chunkNum : Nat) (resp : NetResponse) : Except UploadError ChunkOutcome :=
  let companyChunks := companyChunksOf prep chunkSize
  let totalChunks := totalChunksOf prep chunkSize
  if chunkNum = 1 then
    let body : RequestBody :=
      ⟨prep.formTypes.map (fun ft => ft.code), prep.extensions.map (fun e => e.ext), [], []⟩
    match resp with
    | .netError m => .error ⟨m, some body⟩
    | .httpError em => .error ⟨em.getD "Failed to upload form types and extensions", some body⟩
    | .ok serverFormTypeMap serverExtMap _ =>
      let formTypeIdMap := prep.formTypes.filterMap
        (fun ft => (truthyLookupStr serverFormTypeMap ft.code).map (fun v => (ft.id, v)))
      let extIdMap := prep.extensions.filterMap
        (fun e => (truthyLookupStr serverExtMap e.ext).map (fun v => (e.id, v)))
      .ok ⟨0, decide (chunkNum < totalChunks), body, some ⟨formTypeIdMap, extIdMap⟩,
           { counts with
             formTypes := serverFormTypeMap.length
             extensions := serverExtMap.length }⟩
  else if chunkNum ≤ 1 + companyChunks then
    let start := (chunkNum - 2) * chunkSize
    let chunk := (prep.companies.drop start).take chunkSize
    let body : RequestBody := ⟨[], [], chunk, []⟩
    match resp with
    | .netError m => .error ⟨m, some body⟩
    | .httpError em =>
      .error ⟨em.getD ("Failed to upload companies chunk " ++ toString chunkNum), some body⟩
    | .ok _ _ _ =>
      .ok ⟨0, decide (chunkNum < totalChunks), body, idMappings,
           { counts with companies := counts.companies + chunk.length }⟩
  else
    match idMappings with
    | none => .error ⟨"ID mappings not available - run chunk 1 first", none⟩
    | some maps =>
      let start := (chunkNum - 2 - companyChunks) * chunkSize
      let chunk := ((prep.filings.drop start).take chunkSize).map (remapFiling maps)
      let body : RequestBody := ⟨[], [], [], chunk⟩
      match resp with
      | .netError m => .error ⟨m, some body⟩
      | .httpError em =>
        .error ⟨em.getD ("Failed to upload filings chunk " ++ toString chunkNum), some body⟩
      | .ok _ _ respInserted =>
        let inserted := jsOrNat respInserted chunk.length
        .ok ⟨inserted, decide (chunkNum < totalChunks), body, idMappings,
             { counts with filings := counts.filings + inserted }⟩

/-- The request body `uploadSingleChunk` issues for a given chunk
number (`none` when the filing branch aborts before any request because
the ID mappings are missing).  Coherence with `uploadSingleChunk` is
proved below. -/
def chunkRequest (prep : PreparedImportData) (chunkSize : Nat)
    (idMappings : Option IdMaps) (chunkNum : Nat) : Option RequestBody :=
  let companyChunks := companyChunksOf prep chunkSize
  if chunkNum = 1 then
    some ⟨prep.formTypes.map (fun ft => ft.code), prep.extensions.map (fun e => e.ext), [], []⟩
  else if chunkNum ≤ 1 + companyChunks then
    some ⟨[], [], (prep.companies.drop ((chunkNum - 2) * chunkSize)).take chunkSize, []⟩
  else
    match idMappings with
    | none => none
    | some maps =>
      some ⟨[], [], [],
        ((prep.filings.drop ((chunkNum - 2 - companyChunks) * chunkSize)).take chunkSize).map
          (remapFiling maps)⟩

/-- Upload job status (source `ImportJob['status']`). -/
inductive JobStatus where
  | pending
  | uploading
  | ready
  | running
  | paused
  | completed
  | failed
  deriving DecidableEq

/-- Source `ImportJob` (part_001 lines 21-29).  The optional numeric
fields are modelled as plain numbers with initial value `0`, matching
the source's `x || 0` reads. -/
structure ImportJob where
  jobId : String
  status : JobStatus
  progress : Nat
  totalChunks : Nat
  currentChunk : Nat
  linesImported : Nat
  error : Option String
  deriving DecidableEq

/-- The `importJob` value created by `processFile` (part_001 lines
450-454). -/
def pendingImportJob : ImportJob := ⟨"", .pending, 0, 0, 0, 0, none⟩

/-- Final component state of one `runChunkedUpload` invocation,
instrumented with the ordered log of requests actually sent. -/
structure DriverResult where
  job : ImportJob
  idMappings : Option IdMaps
  counts : UploadedCounts
  startChunk : Nat
  prepCleared : Bool
  sent : List (Nat × RequestBody)
  deriving DecidableEq

/-- The `while (currentChunkNum <= totalChunks)` loop of
`runChunkedUpload` (part_001 lines 592-655).  `fuel` is
`totalChunks + 1 - cur` at entry, so the `0` case coincides with the
loop exit.  `abort n` models the cooperative stop flag as observed at
the top of the iteration for chunk `n`; `net n` is the response to the
single request sent for chunk `n`. -/
def uploadLoop (net : Nat → NetResponse) (abort : Nat → Bool) (autoUpload : Bool)
    (prep : PreparedImportData) (chunkSize totalChunks : Nat) :
    Nat → Nat → Nat → Option IdMaps → UploadedCounts → Nat →
    List (Nat × RequestBody) → ImportJob → DriverResult
  | 0, _cur, _ti, im, cts, sc, sent, job => ⟨job, im, cts, sc, false, sent⟩
  | _fuel + 1, cur, ti, im, cts, sc, sent, job =>
    if totalChunks < cur then ⟨job, im, cts, sc, false, sent⟩
    else if abort cur then
      ⟨{ job with status := .failed, error := some "Upload stopped by user" },
       im, cts, sc, false, sent⟩
    else
      let job1 := { job with
        currentChunk := cur
        status := .running
        progress := (200 * cur + totalChunks) / (2 * totalChunks) }
      match uploadSingleChunk prep chunkSize im cts cur (net cur) with
      | .error e =>
        ⟨{ job1 with status := .failed, error := some e.msg }, im, cts, sc, false,
         sent ++ (e.request.map (fun b => (cur, b))).toList⟩
      | .ok out =>
        let ti' := ti + out.inserted
        let job2 := { job1 with linesImported := ti' }
        let sent' := sent ++ [(cur, out.request)]
        if out.hasMore = false then
          ⟨⟨"chunked", .completed, 100, totalChunks, totalChunks, ti', none⟩,
           none, out.counts, sc, true, sent'⟩
        else if autoUpload = false ∧ cur + 1 ≤ totalChunks then
          ⟨{ job2 with status := .paused, currentChunk := cur }, out.idMappings, out.counts,
           cur + 1, false, sent'⟩
        else
          uploadLoop net abort autoUpload prep chunkSize totalChunks _fuel (cur + 1) ti'
            out.idMappings out.counts sc sent' job2

/-- Source `runChunkedUpload` (part_001 lines 565-656).  The
`preparedImport` null guard is factored out (the function is modelled
for a present prepared dataset); `job0`, `idMappings0`, `counts0` and
`startChunk0` are the component state at invocation time. -/
def runChunkedUpload (net : Nat → NetResponse) (abort : Nat → Bool) (autoUpload : Bool)
    (prep : PreparedImportData) (chunkSize : Nat) (job0 : ImportJob)
    (idMappings0 : Option IdMaps) (counts0 : UploadedCounts)
    (startChunk0 : Nat) (fromChunk : Nat) : DriverResult :=
  let counts1 := if fromChunk ≤ 1 then ⟨0, 0, 0, 0⟩ else counts0
  let totalChunks := totalChunksOf prep chunkSize
  let cur0 := if 0 < fromChunk then fromChunk else 1
  let job1 := { job0 with
    jobId := "chunked"
    status := .running
    totalChunks := totalChunks
    currentChunk := cur0
    linesImported := job0.linesImported }
  uploadLoop net abort autoUpload prep chunkSize totalChunks (totalChunks + 1 - cur0) cur0
    job0.linesImported idMappings0 counts1 startChunk0 [] job1

/-- Length of the filing slice sent in chunk `n`. -/
def filingSliceLen (prep : PreparedImportData) (chunkSize n : Nat) : Nat :=
  ((prep.filings.drop ((n - 2 - companyChunksOf prep chunkSize) * chunkSize)).take chunkSize).length

/-- Amount the driver adds to the cumulative imported total for chunk
`n` under responses `net`: zero for the dimension and company chunks,
the (truthiness-guarded) server-reported count for filing chunks. -/
def chunkInserted (net : Nat → NetResponse) (prep : PreparedImportData)
    (chunkSize n : Nat) : Nat :=
  if 1 + companyChunksOf prep chunkSize < n then
    match net n with
    | .ok _ _ respInserted => jsOrNat respInserted (filingSliceLen prep chunkSize n)
    | _ => 0
  else 0

/-- Sum of `chunkInserted` over chunks `lo ≤ n < lo + len`. -/
def insertedRange (net : Nat → NetResponse) (prep : PreparedImportData)
    (chunkSize lo len : Nat) : Nat :=
  ((List.range' lo len).map (chunkInserted net prep chunkSize)).sum

/-- The server answered the chunk with a parsed success body. -/
def isOkResp (r : NetResponse) : Prop :=
  ∃ a b io, r = NetResponse.ok a b io

/-- The chunk's network call threw or returned a non-success response. -/
def isFailResp (r : NetResponse) : Prop :=
  (∃ em, r = NetResponse.httpError em) ∨ (∃ m, r = NetResponse.netError m)

/-! ## Spec-side definitions for the date round trip -/

/-- A calendar date (spec side). -/
structure CalDate where
  year : Int
  month : Int
  day : Int
  deriving DecidableEq

/-- Number of days in a month of the Gregorian calendar. -/
def daysInMonth (leap : Bool) (m : Int) : Int :=
  if m = 2 then if leap then 29 else 28
  else if m = 4 ∨ m = 6 ∨ m = 9 ∨ m = 11 then 30
  else 31

/-- A well-formed calendar date. -/
def validCalDate (dt : CalDate) : Prop :=
  1 ≤ dt.month ∧ dt.month ≤ 12 ∧ 1 ≤ dt.day ∧ dt.day ≤ daysInMonth (leapYear dt.year) dt.month

/-- Calendar order on dates (year, then month, then day). -/
def calDateLE (a b : CalDate) : Prop :=
  a.year < b.year ∨ (a.year = b.year ∧
    (a.month < b.month ∨ (a.month = b.month ∧ a.day ≤ b.day)))

/-- Successor date in the Gregorian calendar. -/
def nextDay (dt : CalDate) : CalDate :=
  if dt.day < daysInMonth (leapYear dt.year) dt.month then ⟨dt.year, dt.month, dt.day + 1⟩
  else if dt.month < 12 then ⟨dt.year, dt.month + 1, 1⟩
  else ⟨dt.year + 1, 1, 1⟩

/-- Modelled from the spec: the day-count-to-date conversion that
`dateToDays` is claimed to invert — day `n` is the calendar date `n`
days after 1970-01-01 UTC.  (The source has no inverse function; the
spec refers to it abstractly.) -/
def dayCountToDate : Nat → CalDate
  | 0 => ⟨1970, 1, 1⟩
  | n + 1 => nextDay (dayCountToDate n)

/-- Two decimal digits with a leading zero. -/
def pad2 (n : Nat) : String :=
  String.mk [Nat.digitChar (n / 10 % 10), Nat.digitChar (n % 10)]

/-- Four decimal digits with leading zeros. -/
def pad4 (n : Nat) : String :=
  String.mk [Nat.digitChar (n / 1000 % 10), Nat.digitChar (n / 100 % 10),
             Nat.digitChar (n / 10 % 10), Nat.digitChar (n % 10)]

/-- Modelled from the spec: encoding of a calendar date as the 8-digit
`YYYYMMDD` string fed to `dateToDays`. -/
def encodeYYYYMMDD (dt : CalDate) : String :=
  pad4 dt.year.toNat ++ pad2 dt.month.toNat ++ pad2 dt.day.toNat

/-- Day value `dateToDays` computes for a calendar date (the month is
1-based in the text and 0-based in `Date.UTC`). -/
def dateDaysOf (dt : CalDate) : Int :=
  dateUTCDays dt.year (dt.month - 1) dt.day

/-- The `MakeDay` value of a calendar date without the two-digit-year
fixup (they agree for years ≥ 100; see `dateUTCDays_valid_eq`). -/
def calDaysOf (dt : CalDate) : Int :=
  dayFromYear dt.year + monthStart (leapYear dt.year) (dt.month - 1).toNat + dt.day - 1

/-- The spec's C9 scenario input: a header line and one newline-
terminated data line. -/
def c9Content : String :=
  "CIK|Company Name|Form Type|Date Filed|File Name\n1000275|ACME CORP|10-K|20240115|edgar/data/1000275/0000950103-24-000123.txt\n"

/-- The same input with the final data line not terminated by a
newline. -/
def c1UnterminatedContent : String :=
  "CIK|Company Name|Form Type|Date Filed|File Name\n1000275|ACME CORP|10-K|20240115|edgar/data/1000275/0000950103-24-000123.txt"

/-- The spec's C8 scenario row: a well-fielded data line whose path
does not match the accession pattern. -/
def c8BadLine : String := "55|CONSOLIDATED EDISON|10-K|20240101|edgar/data/55/badfile.txt"

/-- The request a call of `uploadSingleChunk` issued, whether it
succeeded or threw. -/
def sentRequestOf (r : Except UploadError ChunkOutcome) : Option RequestBody :=
  match r with
  | .ok out => some out.request
  | .error e => e.request

/-- Small concrete prepared dataset used by witnesses: one form type,
one extension, three companies and one filing. -/
def prepW : PreparedImportData :=
  ⟨[⟨1, "10-K"⟩], [⟨1, "txt"⟩],
   [⟨1, "ALPHA"⟩, ⟨2, "BETA"⟩, ⟨3, "GAMMA"⟩],
   [⟨1, 1, some 19737, 950103, 123, 1⟩]⟩

/-- Witness network behaviour: a network error on chunk 2, success
everywhere else. -/
def c3NetW : Nat → NetResponse :=
  fun n => if n = 2 then .netError "network error" else .ok [] [] none

/-! ## Helper lemmas -/

theorem lookupStrKey_append {m tail : List (String × Nat)} {k : String} {v : Nat}
    (h : lookupStrKey m k = some v) : lookupStrKey (m ++ tail) k = some v := by
  unfold lookupStrKey at h ⊢
  obtain ⟨p, hp, hv⟩ := Option.map_eq_some'.mp h
  rw [List.find?_append, hp]
  simpa using hv

theorem lookupNatKey_append {m tail : List (Nat × String)} {k : Nat} {v : String}
    (h : lookupNatKey m k = some v) : lookupNatKey (m ++ tail) k = some v := by
  unfold lookupNatKey at h ⊢
  obtain ⟨p, hp, hv⟩ := Option.map_eq_some'.mp h
  rw [List.find?_append, hp]
  simpa using hv

/-- Per-line evolution of the three dictionaries: each is unchanged or
extended by a single fresh entry, whose ID is the new size for the two
ID dictionaries. -/
theorem processLine_dicts (st : ParseState) (line : String) :
    ((processLine st line).formTypes = st.formTypes ∨
      ∃ k, (processLine st line).formTypes = st.formTypes ++ [(k, st.formTypes.length + 1)]) ∧
    ((processLine st line).extensions = st.extensions ∨
      ∃ k, (processLine st line).extensions = st.extensions ++ [(k, st.extensions.length + 1)]) ∧
    ((processLine st line).companies = st.companies ∨
      ∃ c nm, (processLine st line).companies = st.companies ++ [(c, nm)]) := by
  have hdata : ∀ s : ParseState,
      ((processDataRow s line).formTypes = s.formTypes ∨
        ∃ k, (processDataRow s line).formTypes = s.formTypes ++ [(k, s.formTypes.length + 1)]) ∧
      ((processDataRow s line).extensions = s.extensions ∨
        ∃ k, (processDataRow s line).extensions = s.extensions ++ [(k, s.extensions.length + 1)]) ∧
      ((processDataRow s line).companies = s.companies ∨
        ∃ c nm, (processDataRow s line).companies = s.companies ++ [(c, nm)]) := by
    intro s
    unfold processDataRow
    dsimp only
    split
    · exact ⟨Or.inl rfl, Or.inl rfl, Or.inl rfl⟩
    split
    · exact ⟨Or.inl rfl, Or.inl rfl, Or.inl rfl⟩
    split
    · exact ⟨Or.inl rfl, Or.inl rfl, Or.inl rfl⟩
    refine ⟨?_, ?_, ?_⟩
    · dsimp only
      split
      · exact Or.inl rfl
      · exact Or.inr ⟨_, rfl⟩
    · dsimp only
      split
      · exact Or.inl rfl
      · exact Or.inr ⟨_, rfl⟩
    · dsimp only
      split
      · exact Or.inl rfl
      · exact Or.inr ⟨_, _, rfl⟩
  unfold processLine
  split
  · exact hdata st
  · split
    · exact ⟨Or.inl rfl, Or.inl rfl, Or.inl rfl⟩
    · split
      · exact hdata _
      · exact ⟨Or.inl rfl, Or.inl rfl, Or.inl rfl⟩

/-- Existing dictionary bindings survive the rest of a run. -/
theorem processLines_lookups_mono (limit : Option Nat) (lines : List String) :
    ∀ st : ParseState,
    (∀ k v, lookupStrKey st.formTypes k = some v →
      lookupStrKey (processLines limit st lines).formTypes k = some v) ∧
    (∀ k v, lookupStrKey st.extensions k = some v →
      lookupStrKey (processLines limit st lines).extensions k = some v) ∧
    (∀ c nm, lookupNatKey st.companies c = some nm →
      lookupNatKey (processLines limit st lines).companies c = some nm) := by
  induction lines with
  | nil => intro st; exact ⟨fun _ _ h => h, fun _ _ h => h, fun _ _ h => h⟩
  | cons l ls ih =>
    intro st
    show (∀ k v, _) ∧ (∀ k v, _) ∧ (∀ c nm, _)
    unfold processLines
    split
    · exact ⟨fun _ _ h => h, fun _ _ h => h, fun _ _ h => h⟩
    · obtain ⟨hf, he, hc⟩ := processLine_dicts st l
      obtain ⟨ihf, ihe, ihc⟩ := ih (processLine st l)
      refine ⟨fun k v h => ihf k v ?_, fun k v h => ihe k v ?_, fun c nm h => ihc c nm ?_⟩
      · rcases hf with h1 | ⟨k', h1⟩ <;> rw [h1]
        · exact h
        · exact lookupStrKey_append h
      · rcases he with h1 | ⟨k', h1⟩ <;> rw [h1]
        · exact h
        · exact lookupStrKey_append h
      · rcases hc with h1 | ⟨c', nm', h1⟩ <;> rw [h1]
        · exact h
        · exact lookupNatKey_append h

/-- Density of the ID dictionaries: values are exactly `1..size`. -/
def denseDicts (st : ParseState) : Prop :=
  st.formTypes.map Prod.snd = List.range' 1 st.formTypes.length ∧
  st.extensions.map Prod.snd = List.range' 1 st.extensions.length

theorem dense_append {m : List (String × Nat)} {k : String}
    (h : m.map Prod.snd = List.range' 1 m.length) :
    (m ++ [(k, m.length + 1)]).map Prod.snd = List.range' 1 (m ++ [(k, m.length + 1)]).length := by
  have hc : List.range' 1 (m.length + 1) = List.range' 1 m.length ++ [1 + 1 * m.length] :=
    List.range'_concat 1 m.length
  simp only [List.map_append, List.length_append, List.map_cons, List.map_nil, h,
    List.length_cons, List.length_nil, Nat.zero_add]
  rw [hc]
  norm_num [Nat.add_comm]

theorem processLines_dense (limit : Option Nat) (lines : List String) :
    ∀ st : ParseState, denseDicts st → denseDicts (processLines limit st lines) := by
  induction lines with
  | nil => intro st h; exact h
  | cons l ls ih =>
    intro st h
    unfold processLines
    split
    · exact h
    · refine ih _ ?_
      obtain ⟨hf, he, _⟩ := processLine_dicts st l
      constructor
      · rcases hf with h1 | ⟨k, h1⟩ <;> rw [h1]
        · exact h.1
        · exact dense_append h.1
      · rcases he with h1 | ⟨k, h1⟩ <;> rw [h1]
        · exact h.2
        · exact dense_append h.2

/-! ## Claim theorems -/

/-- C6: throughout one `processFile` run the form-type and extension
dictionaries assign local IDs in first-seen order starting at 1 with no
gaps (after any prefix of the lines, each dictionary's IDs are exactly
`1..size`), an existing entry's ID is never changed by further
processing, and a company's stored first-seen name is never updated by
later rows with the same CIK. -/
theorem c6_dictionary_invariants (limit : Option Nat) (lines more : List String) :
    (processLines limit initParseState lines).formTypes.map Prod.snd =
      List.range' 1 (processLines limit initParseState lines).formTypes.length ∧
    (processLines limit initParseState lines).extensions.map Prod.snd =
      List.range' 1 (processLines limit initParseState lines).extensions.length ∧
    (∀ k v, lookupStrKey (processLines limit initParseState lines).formTypes k = some v →
      lookupStrKey (processLines limit (processLines limit initParseState lines) more).formTypes
        k = some v) ∧
    (∀ k v, lookupStrKey (processLines limit initParseState lines).extensions k = some v →
      lookupStrKey (processLines limit (processLines limit initParseState lines) more).extensions
        k = some v) ∧
    (∀ c nm, lookupNatKey (processLines limit initParseState lines).companies c = some nm →
      lookupNatKey (processLines limit (processLines limit initParseState lines) more).companies
        c = some nm) := by
  have hdense := processLines_dense limit lines initParseState ⟨rfl, rfl⟩
  obtain ⟨hf, he, hc⟩ := processLines_lookups_mono limit more
    (processLines limit initParseState lines)
  exact ⟨hdense.1, hdense.2, hf, he, hc⟩

/-- Witness for C6 at a concrete run (the C9 scenario data followed by
a further line reusing the same CIK with a different name). -/
theorem c6_dictionary_invariants_witness :
    lookupNatKey (processLines none initParseState (fileLines c9Content)).companies 1000275 =
      some "ACME CORP" ∧
    lookupNatKey
      (processLines none (processLines none initParseState (fileLines c9Content))
        ["1000275|OTHER NAME|10-Q|20240116|edgar/data/1000275/0000950103-24-000124.txt"]).companies
      1000275 = some "ACME CORP" := by
  refine ⟨by decide, ?_⟩
  exact (c6_dictionary_invariants none (fileLines c9Content)
    ["1000275|OTHER NAME|10-Q|20240116|edgar/data/1000275/0000950103-24-000124.txt"]).2.2.2.2
    1000275 "ACME CORP" (by decide)

/-- Helper for C8: a data row that fails the field-count check or the
accession-pattern check leaves the parse state completely unchanged
(both `continue` statements precede every state mutation). -/
theorem processDataRow_malformed (st : ParseState) (line : String)
    (hbad : ((splitOnChar '|' line.data).map String.mk).length < 5 ∨
      parseAccession (jsTrim (((splitOnChar '|' line.data).map String.mk).getD 4 "")) = none) :
    processDataRow st line = st := by
  unfold processDataRow
  dsimp only
  split
  · rfl
  split
  · rfl
  split
  · rfl
  exfalso
  rcases hbad with hbad | hbad
  · omega
  · simp_all

/-- C8: a line that passes the data-row gate but splits into fewer than
five pipe-separated fields, or whose path field does not match the
accession pattern, is skipped silently: no record is emitted, no error
is recorded, no dictionary or counter changes, while the Row Counter
pass counts it as a data row (so the record total falls one short of
the raw data-line count for each such row). -/
theorem c8_malformed_row_skipped (st : ParseState) (line : String)
    (hgate : isDataRow line = true)
    (hbad : ((splitOnChar '|' line.data).map String.mk).length < 5 ∨
      parseAccession (jsTrim (((splitOnChar '|' line.data).map String.mk).getD 4 "")) = none) :
    (processLine st line).records = st.records ∧
    (processLine st line).errors = st.errors ∧
    (processLine st line).formTypes = st.formTypes ∧
    (processLine st line).extensions = st.extensions ∧
    (processLine st line).companies = st.companies ∧
    (processLine st line).rowsProcessed = st.rowsProcessed ∧
    (∀ n : Nat, (countLine ⟨true, n⟩ line).rowCount = n + 1) := by
  have hcount : ∀ n : Nat, (countLine ⟨true, n⟩ line).rowCount = n + 1 := by
    intro n
    simp [countLine, hgate]
  unfold processLine
  by_cases hh : st.headerSkipped = true
  · rw [if_pos hh, processDataRow_malformed st line hbad]
    exact ⟨rfl, rfl, rfl, rfl, rfl, rfl, hcount⟩
  · rw [if_neg hh]
    by_cases hn : headerNoise line = true
    · rw [if_pos hn]
      exact ⟨rfl, rfl, rfl, rfl, rfl, rfl, hcount⟩
    · rw [if_neg hn, if_pos hgate, processDataRow_malformed _ line hbad]
      exact ⟨rfl, rfl, rfl, rfl, rfl, rfl, hcount⟩

/-- Witness for C8 at the spec's scenario row (path
`edgar/data/55/badfile.txt`). -/
theorem c8_malformed_row_skipped_witness :
    (processLine initParseState c8BadLine).records = initParseState.records ∧
    (processLine initParseState c8BadLine).rowsProcessed = initParseState.rowsProcessed ∧
    (∀ n : Nat, (countLine ⟨true, n⟩ c8BadLine).rowCount = n + 1) := by
  have h := c8_malformed_row_skipped initParseState c8BadLine (by decide) (Or.inr (by decide))
  exact ⟨h.1, h.2.2.2.2.2.1, h.2.2.2.2.2.2⟩

/-- C1 (code bug evaluation): on a file whose final data line is not
terminated by a newline, the Row Counter pass counts the trailing
pending buffer as a data row but `processFile` never processes the
pending buffer at end-of-stream, so the two passes disagree; with the
terminating newline both report one row. -/
theorem c1_trailing_line_divergence :
    handleFileSelectRowCount c1UnterminatedContent = 1 ∧
    (processFile none c1UnterminatedContent).records.length = 0 ∧
    handleFileSelectRowCount c9Content = 1 ∧
    (processFile none c9Content).records.length = 1 := by
  exact ⟨by decide, by decide, by decide, by decide⟩

/-! ## Chunk planner lemmas (C2) -/

theorem jsCeilDiv_bounds (n s : Nat) (hs : 1 ≤ s) :
    n ≤ jsCeilDiv n s * s ∧ jsCeilDiv n s * s < n + s := by
  unfold jsCeilDiv
  have h1 := Nat.div_add_mod (n + s - 1) s
  have h2 := Nat.mod_lt (n + s - 1) (show 0 < s from hs)
  have h3 : (n + s - 1) / s * s = s * ((n + s - 1) / s) := Nat.mul_comm _ _
  omega

theorem jsCeilDiv_zero (s : Nat) (hs : 1 ≤ s) : jsCeilDiv 0 s = 0 := by
  unfold jsCeilDiv
  exact Nat.div_eq_of_lt (by omega)

theorem jsCeilDiv_pos_eq (len s : Nat) (hs : 1 ≤ s) (hlen : 1 ≤ len) :
    jsCeilDiv len s = (len - 1) / s + 1 := by
  unfold jsCeilDiv
  have h : len + s - 1 = (len - 1) + s := by omega
  rw [h, Nat.add_div_right _ hs]

theorem jsCeilDiv_drop (len s n : Nat) (hs : 1 ≤ s) (h : jsCeilDiv len s = n + 1) :
    jsCeilDiv (len - s) s = n := by
  have hlen : 1 ≤ len := by
    by_contra hc
    have h0 : len = 0 := by omega
    rw [h0, jsCeilDiv_zero s hs] at h
    exact absurd h.symm (Nat.succ_ne_zero n)
  by_cases hle : len ≤ s
  · have h0 : len - s = 0 := by omega
    rw [h0, jsCeilDiv_zero s hs]
    have hdiv : (len - 1) / s = 0 := Nat.div_eq_of_lt (by omega)
    rw [jsCeilDiv_pos_eq len s hs hlen, hdiv] at h
    omega
  · have h1 : 1 ≤ len - s := by omega
    have h4 : len - 1 = (len - s - 1) + s := by omega
    rw [jsCeilDiv_pos_eq len s hs hlen, h4, Nat.add_div_right _ hs] at h
    rw [jsCeilDiv_pos_eq (len - s) s hs h1]
    exact Nat.add_right_cancel h

/-- Concatenating the consecutive `chunkSize`-slices of a list
reconstructs the list: every element lands in exactly one slice and no
slice boundary splits the list. -/
theorem join_chunks {α : Type} (s : Nat) (hs : 1 ≤ s) :
    ∀ (n : Nat) (l : List α), jsCeilDiv l.length s = n →
      ((List.range n).map (fun i => (l.drop (i * s)).take s)).flatten = l := by
  intro n
  induction n with
  | zero =>
    intro l hl
    have hlen : l.length = 0 := by
      by_contra hc
      have h1 : 1 ≤ l.length := by omega
      rw [jsCeilDiv_pos_eq l.length s hs h1] at hl
      exact absurd hl (Nat.succ_ne_zero _)
    simp [List.eq_nil_of_length_eq_zero hlen]
  | succ n ih =>
    intro l hl
    have hlen : 1 ≤ l.length := by
      by_contra hc
      have h0 : l.length = 0 := by omega
      rw [h0, jsCeilDiv_zero s hs] at hl
      exact absurd hl.symm (Nat.succ_ne_zero n)
    have hceil : jsCeilDiv (l.drop s).length s = n := by
      rw [List.length_drop]
      exact jsCeilDiv_drop l.length s n hs hl
    have hrest : ((List.range n).map (fun i => (l.drop ((i + 1) * s)).take s)) =
        (List.range n).map (fun i => ((l.drop s).drop (i * s)).take s) := by
      refine List.map_congr_left (fun i _ => ?_)
      rw [List.drop_drop]
      have h5 : s + i * s = (i + 1) * s := by ring
      rw [h5]
    rw [List.range_succ_eq_map]
    simp only [List.map_cons, List.flatten_cons, List.map_map]
    have hcomp : (fun i => (l.drop (i * s)).take s) ∘ Nat.succ =
        fun i => (l.drop ((i + 1) * s)).take s := by
      funext i
      simp [Function.comp, Nat.succ_eq_add_one]
    rw [hcomp, hrest, ih (l.drop s) hceil]
    simp [List.take_append_drop]

/-- Coherence of `chunkRequest` with `uploadSingleChunk`: for every
chunk number and every response, the request `uploadSingleChunk` issues
(also recorded on failure) is `chunkRequest`. -/
theorem uploadSingleChunk_request (prep : PreparedImportData) (s : Nat)
    (im : Option IdMaps) (cts : UploadedCounts) (n : Nat) (resp : NetResponse) :
    sentRequestOf (uploadSingleChunk prep s im cts n resp) = chunkRequest prep s im n := by
  unfold uploadSingleChunk chunkRequest
  by_cases h1 : n = 1
  · cases resp <;> simp [h1, sentRequestOf]
  · rw [if_neg h1, if_neg h1]
    by_cases h2 : n ≤ 1 + companyChunksOf prep s
    · rw [if_pos h2, if_pos h2]
      cases resp <;> simp [sentRequestOf]
    · rw [if_neg h2, if_neg h2]
      cases im with
      | none => simp [sentRequestOf]
      | some maps => cases resp <;> simp [sentRequestOf]

/-- C2: for every chunk size `s ≥ 1` the planner arithmetic satisfies
`totalChunks = 1 + companyChunks + filingChunks` with
`companyChunks = ceil(companies/s)` and `filingChunks = ceil(filings/s)`
(stated via the characteristic bounds of the ceiling); the request of
chunk 1 carries all form types and extensions unsplit; chunks
`2..1+companyChunks` carry the consecutive company slices of size `s`
(last possibly smaller) and chunks `2+companyChunks..totalChunks` the
consecutive filing slices; and concatenating the slices of either
collection reconstructs it, so every record appears in exactly one
chunk. -/
theorem c2_chunk_planner (prep : PreparedImportData) (s : Nat) (im : Option IdMaps)
    (maps : IdMaps) (hs : 1 ≤ s) :
    totalChunksOf prep s = 1 + companyChunksOf prep s + filingChunksOf prep s ∧
    (prep.companies.length ≤ companyChunksOf prep s * s ∧
      companyChunksOf prep s * s < prep.companies.length + s) ∧
    (prep.filings.length ≤ filingChunksOf prep s * s ∧
      filingChunksOf prep s * s < prep.filings.length + s) ∧
    (∀ (cts : UploadedCounts) (n : Nat) (resp : NetResponse),
      sentRequestOf (uploadSingleChunk prep s im cts n resp) = chunkRequest prep s im n) ∧
    chunkRequest prep s im 1 =
      some ⟨prep.formTypes.map (fun ft => ft.code), prep.extensions.map (fun e => e.ext),
        [], []⟩ ∧
    (∀ i, i < companyChunksOf prep s →
      chunkRequest prep s im (2 + i) =
        some ⟨[], [], (prep.companies.drop (i * s)).take s, []⟩) ∧
    ((List.range (companyChunksOf prep s)).map
        (fun i => (prep.companies.drop (i * s)).take s)).flatten = prep.companies ∧
    (∀ j, j < filingChunksOf prep s →
      chunkRequest prep s (some maps) (2 + companyChunksOf prep s + j) =
        some ⟨[], [], [], ((prep.filings.drop (j * s)).take s).map (remapFiling maps)⟩) ∧
    ((List.range (filingChunksOf prep s)).map
        (fun j => (prep.filings.drop (j * s)).take s)).flatten = prep.filings := by
  refine ⟨rfl, jsCeilDiv_bounds _ s hs, jsCeilDiv_bounds _ s hs,
    fun cts n resp => uploadSingleChunk_request prep s im cts n resp,
    by simp [chunkRequest], ?_, join_chunks s hs _ _ rfl, ?_, join_chunks s hs _ _ rfl⟩
  · intro i hi
    unfold chunkRequest
    rw [if_neg (by omega), if_pos (by omega)]
    have h2 : 2 + i - 2 = i := by omega
    rw [h2]
  · intro j hj
    unfold chunkRequest
    rw [if_neg (by omega), if_neg (by omega)]
    have h2 : 2 + companyChunksOf prep s + j - 2 - companyChunksOf prep s = j := by omega
    rw [h2]

/-- Witness for C2 on a concrete dataset (three companies, one filing,
chunk size 2: two company chunks and one filing chunk). -/
theorem c2_chunk_planner_witness :
    totalChunksOf prepW 2 = 4 ∧
    ((List.range (companyChunksOf prepW 2)).map
        (fun i => (prepW.companies.drop (i * 2)).take 2)).flatten = prepW.companies := by
  have h := c2_chunk_planner prepW 2 none ⟨[], []⟩ (by norm_num)
  exact ⟨by decide, h.2.2.2.2.2.2.1⟩

/-! ## Unmapped dimension IDs (C4) -/

theorem lookupNatMap_filterMap_none {A : Type} (key : A → Nat) (str : A → String)
    (sm : List (String × Nat)) (i : Nat) :
    ∀ l : List A, (∀ a ∈ l, key a = i → lookupStrMap sm (str a) = none) →
      lookupNatMap (l.filterMap
        (fun a => (truthyLookupStr sm (str a)).map (fun v => (key a, v)))) i = none := by
  intro l
  induction l with
  | nil => intro _; rfl
  | cons a l ih =>
    intro h
    rw [List.filterMap_cons]
    cases htl : truthyLookupStr sm (str a) with
    | none =>
      simp only [htl, Option.map_none']
      exact ih (fun b hb hk => h b (List.mem_cons_of_mem a hb) hk)
    | some v =>
      simp only [htl, Option.map_some']
      have hne : key a ≠ i := by
        intro hk
        have := h a (List.mem_cons_self a l) hk
        unfold truthyLookupStr at htl
        rw [this] at htl
        exact Option.noConfusion htl
      unfold lookupNatMap
      rw [List.find?_cons_of_neg _ (by simpa using hne)]
      exact ih (fun b hb hk => h b (List.mem_cons_of_mem a hb) hk)

theorem jsOrLookup_of_none {m : List (Nat × Nat)} {k : Nat}
    (h : lookupNatMap m k = none) : jsOrLookup m k = k := by
  unfold jsOrLookup
  rw [h]

/-- C4: a form-type code (resp. extension) present in the local
dictionary but absent from chunk 1's response maps gets no entry for
its local ID in the IdRemapping built by chunk 1, and every filing
referencing that local ID is transmitted in the later filing chunks
with `form_type_id` (resp. `ext_id`) equal to the unchanged local ID. -/
theorem c4_unmapped_ids_pass_through (prep : PreparedImportData) (s : Nat)
    (im0 : Option IdMaps) (cts : UploadedCounts)
    (ftMap extMap : List (String × Nat)) (ins : Option Nat)
    (i e : Nat) (out : ChunkOutcome)
    (hft : ∀ ft ∈ prep.formTypes, ft.id = i → lookupStrMap ftMap ft.code = none)
    (hext : ∀ ex ∈ prep.extensions, ex.id = e → lookupStrMap extMap ex.ext = none)
    (hrun : uploadSingleChunk prep s im0 cts 1 (.ok ftMap extMap ins) = .ok out) :
    ∃ maps : IdMaps, out.idMappings = some maps ∧
      lookupNatMap maps.formTypeIdMap i = none ∧
      lookupNatMap maps.extIdMap e = none ∧
      (∀ f : Filing, (f.form_type_id = i → (remapFiling maps f).form_type_id = i) ∧
        (f.ext_id = e → (remapFiling maps f).ext_id = e)) ∧
      (∀ j, j < filingChunksOf prep s →
        chunkRequest prep s (some maps) (2 + companyChunksOf prep s + j) =
          some ⟨[], [], [], ((prep.filings.drop (j * s)).take s).map (remapFiling maps)⟩) := by
  unfold uploadSingleChunk at hrun
  rw [if_pos rfl] at hrun
  simp only [Except.ok.injEq] at hrun
  refine ⟨⟨prep.formTypes.filterMap
      (fun ft => (truthyLookupStr ftMap ft.code).map (fun v => (ft.id, v))),
    prep.extensions.filterMap
      (fun ex => (truthyLookupStr extMap ex.ext).map (fun v => (ex.id, v)))⟩,
    by rw [← hrun], ?_, ?_, ?_, ?_⟩
  · exact lookupNatMap_filterMap_none (fun ft => ft.id) (fun ft => ft.code) ftMap i
      prep.formTypes hft
  · exact lookupNatMap_filterMap_none (fun ex => ex.id) (fun ex => ex.ext) extMap e
      prep.extensions hext
  · intro f
    constructor
    · intro hf
      have h0 := lookupNatMap_filterMap_none (fun ft => ft.id) (fun ft => ft.code) ftMap i
        prep.formTypes hft
      simp only [remapFiling, hf]
      exact jsOrLookup_of_none h0
    · intro hf
      have h0 := lookupNatMap_filterMap_none (fun ex => ex.id) (fun ex => ex.ext) extMap e
        prep.extensions hext
      simp only [remapFiling, hf]
      exact jsOrLookup_of_none h0
  · intro j hj
    unfold chunkRequest
    rw [if_neg (by omega), if_neg (by omega)]
    have h2 : 2 + companyChunksOf prep s + j - 2 - companyChunksOf prep s = j := by omega
    rw [h2]

/-- Witness for C4: chunk 1's response maps only the extension and
omits the form-type code, so the form-type local ID 1 stays unmapped
and a filing referencing it keeps `form_type_id = 1`. -/
theorem c4_unmapped_ids_pass_through_witness :
    ∃ maps : IdMaps,
      (⟨0, true, ⟨["10-K"], ["txt"], [], []⟩, some ⟨[], [(1, 42)]⟩,
        ⟨0, 1, 0, 0⟩⟩ : ChunkOutcome).idMappings = some maps ∧
      lookupNatMap maps.formTypeIdMap 1 = none ∧
      lookupNatMap maps.extIdMap 2 = none ∧
      (∀ f : Filing, (f.form_type_id = 1 → (remapFiling maps f).form_type_id = 1) ∧
        (f.ext_id = 2 → (remapFiling maps f).ext_id = 2)) ∧
      (∀ j, j < filingChunksOf prepW 5 →
        chunkRequest prepW 5 (some maps) (2 + companyChunksOf prepW 5 + j) =
          some ⟨[], [], [], ((prepW.filings.drop (j * 5)).take 5).map (remapFiling maps)⟩) :=
  c4_unmapped_ids_pass_through prepW 5 none ⟨0, 0, 0, 0⟩ [] [("txt", 42)] none 1 2 _
    (by decide) (by decide) rfl

/-! ## Server-reported insert counts (C7) -/

/-- C7 counterexample: the filing chunk of `prepW` at chunk size 5 is
chunk 3 with a one-filing slice; when the server response reports
`inserted = 0`, the claim as stated predicts the cumulative filings
total gains 0, but the code's `data.inserted || chunk.length` fallback
adds the slice length 1. -/
theorem c7_reported_zero_counterexample :
    (uploadSingleChunk prepW 5 (some ⟨[], []⟩) ⟨0, 0, 0, 0⟩ 3
        (.ok [] [] (some 0))).toOption.map (fun o => o.counts.filings) = some 1 ∧
    ¬ ((uploadSingleChunk prepW 5 (some ⟨[], []⟩) ⟨0, 0, 0, 0⟩ 3
        (.ok [] [] (some 0))).toOption.map (fun o => o.counts.filings) = some 0) :=
  ⟨by decide, by decide⟩

/-- C7 (amended): on a filing-chunk send the driver adds the
server-reported inserted count, not the slice length, whenever the
reported count is nonzero (including when it differs from the slice
length); a reported count of `0` or an absent field falls back to the
slice length. -/
theorem c7_server_reported_count (prep : PreparedImportData) (s : Nat)
    (maps : IdMaps) (cts : UploadedCounts) (n : Nat)
    (ftm extm : List (String × Nat)) (ins : Option Nat) (out : ChunkOutcome)
    (hn : 1 + companyChunksOf prep s < n)
    (hrun : uploadSingleChunk prep s (some maps) cts n (.ok ftm extm ins) = .ok out) :
    (∀ k, ins = some k → k ≠ 0 →
      out.counts.filings = cts.filings + k ∧ out.inserted = k) ∧
    ((ins = none ∨ ins = some 0) →
      out.counts.filings = cts.filings + filingSliceLen prep s n ∧
      out.inserted = filingSliceLen prep s n) := by
  unfold uploadSingleChunk at hrun
  rw [if_neg (by omega), if_neg (by omega)] at hrun
  simp only [Except.ok.injEq] at hrun
  subst hrun
  constructor
  · intro k hk hk0
    subst hk
    refine ⟨?_, ?_⟩ <;> simp [jsOrNat, hk0]
  · intro hk
    rcases hk with hk | hk <;> subst hk <;>
      refine ⟨?_, ?_⟩ <;> simp [jsOrNat, filingSliceLen, companyChunksOf]

/-- Witness for C7 (amended) at a server-reported count of 7 against a
slice of length 1. -/
theorem c7_server_reported_count_witness :
    (⟨0, 0, 0, 7⟩ : UploadedCounts).filings = (⟨0, 0, 0, 0⟩ : UploadedCounts).filings + 7 := by
  have h := c7_server_reported_count prepW 5 ⟨[], []⟩ ⟨0, 0, 0, 0⟩ 3 [] [] (some 7)
    ⟨7, false, ⟨[], [], [], [⟨1, 1, some 19737, 950103, 123, 1⟩]⟩, some ⟨[], []⟩, ⟨0, 0, 0, 7⟩⟩
    (by decide) rfl
  exact (h.1 7 rfl (by decide)).1

/-! ## Driver failure without mappings (C10) -/

/-- C10: invoking `runChunkedUpload` at a filing-chunk number
(`fromChunk > 1 + companyChunks`, within the plan) while no IdRemapping
exists sends no filing data at all and fails immediately with the fixed
error message, with `currentChunk` at the requested chunk. -/
theorem c10_filing_chunk_without_mappings (net : Nat → NetResponse)
    (autoUpload : Bool) (prep : PreparedImportData) (s : Nat)
    (job0 : ImportJob) (cts : UploadedCounts) (sc0 fromChunk : Nat)
    (h1 : 1 + companyChunksOf prep s < fromChunk)
    (h2 : fromChunk ≤ totalChunksOf prep s) :
    (runChunkedUpload net (fun _ => false) autoUpload prep s job0 none cts sc0
        fromChunk).job.status = .failed ∧
    (runChunkedUpload net (fun _ => false) autoUpload prep s job0 none cts sc0
        fromChunk).job.error = some "ID mappings not available - run chunk 1 first" ∧
    (runChunkedUpload net (fun _ => false) autoUpload prep s job0 none cts sc0
        fromChunk).job.currentChunk = fromChunk ∧
    (runChunkedUpload net (fun _ => false) autoUpload prep s job0 none cts sc0
        fromChunk).sent = [] := by
  have h0 : 0 < fromChunk := by omega
  unfold runChunkedUpload
  dsimp only
  rw [if_pos h0]
  have hfuel : totalChunksOf prep s + 1 - fromChunk =
      (totalChunksOf prep s - fromChunk) + 1 := by omega
  rw [hfuel]
  unfold uploadLoop
  rw [if_neg (by omega)]
  simp only [Bool.false_eq_true, if_false]
  rw [if_neg (show ¬ fromChunk ≤ 1 by omega)]
  have hsend : uploadSingleChunk prep s none cts fromChunk (net fromChunk) =
      .error ⟨"ID mappings not available - run chunk 1 first", none⟩ := by
    unfold uploadSingleChunk
    rw [if_neg (by omega), if_neg (by omega)]
  rw [hsend]
  exact ⟨rfl, rfl, rfl, rfl⟩

/-! ## Upload driver loop lemmas (C3) -/

theorem uploadSingleChunk_ok_spec (prep : PreparedImportData) (s : Nat)
    (im : Option IdMaps) (cts : UploadedCounts) (n : Nat)
    (a b : List (String × Nat)) (io : Option Nat)
    (hmaps : 1 + companyChunksOf prep s < n → im.isSome) :
    ∃ out : ChunkOutcome,
      uploadSingleChunk prep s im cts n (.ok a b io) = .ok out ∧
      out.hasMore = decide (n < totalChunksOf prep s) ∧
      out.inserted = (if 1 + companyChunksOf prep s < n
        then jsOrNat io (filingSliceLen prep s n) else 0) ∧
      (out.idMappings.isSome ↔ (n = 1 ∨ im.isSome)) := by
  unfold uploadSingleChunk
  by_cases h1 : n = 1
  · rw [if_pos h1]
    refine ⟨_, rfl, rfl, ?_, ?_⟩
    · rw [if_neg (by omega)]
    · simp [h1]
  · rw [if_neg h1]
    by_cases h2 : n ≤ 1 + companyChunksOf prep s
    · rw [if_pos h2]
      refine ⟨_, rfl, rfl, ?_, ?_⟩
      · rw [if_neg (by omega)]
      · simp [h1]
    · rw [if_neg h2]
      obtain ⟨maps, hm⟩ := Option.isSome_iff_exists.mp (hmaps (by omega))
      rw [hm]
      refine ⟨_, rfl, rfl, ?_, ?_⟩
      · rw [if_pos (by omega)]
        simp [filingSliceLen]
      · simp [h1, hm]

theorem uploadSingleChunk_fail_spec (prep : PreparedImportData) (s : Nat)
    (im : Option IdMaps) (cts : UploadedCounts) (n : Nat) (resp : NetResponse)
    (hmaps : 1 + companyChunksOf prep s < n → im.isSome)
    (hfail : isFailResp resp) :
    ∃ e : UploadError,
      uploadSingleChunk prep s im cts n resp = .error e ∧ e.request.isSome := by
  unfold uploadSingleChunk
  by_cases h1 : n = 1
  · rw [if_pos h1]
    rcases hfail with ⟨em, rfl⟩ | ⟨m, rfl⟩ <;> exact ⟨_, rfl, rfl⟩
  · rw [if_neg h1]
    by_cases h2 : n ≤ 1 + companyChunksOf prep s
    · rw [if_pos h2]
      rcases hfail with ⟨em, rfl⟩ | ⟨m, rfl⟩ <;> exact ⟨_, rfl, rfl⟩
    · rw [if_neg h2]
      obtain ⟨maps, hm⟩ := Option.isSome_iff_exists.mp (hmaps (by omega))
      rw [hm]
      rcases hfail with ⟨em, rfl⟩ | ⟨m, rfl⟩ <;> exact ⟨_, rfl, rfl⟩

/-- When every remaining chunk gets a success response, the loop runs
to `completed`, sending exactly chunks `cur..totalChunks` in order and
accumulating the per-chunk inserted counts. -/
theorem uploadLoop_success (net : Nat → NetResponse) (prep : PreparedImportData) (s : Nat) :
    ∀ (fuel cur ti : Nat) (im : Option IdMaps) (cts : UploadedCounts) (sc : Nat)
      (sent : List (Nat × RequestBody)) (job : ImportJob),
      fuel = totalChunksOf prep s + 1 - cur → 1 ≤ cur → cur ≤ totalChunksOf prep s →
      (∀ n, cur ≤ n → n ≤ totalChunksOf prep s → isOkResp (net n)) →
      (1 < cur → im.isSome) →
      (uploadLoop net (fun _ => false) true prep s (totalChunksOf prep s)
          fuel cur ti im cts sc sent job).job.status = .completed ∧
      (uploadLoop net (fun _ => false) true prep s (totalChunksOf prep s)
          fuel cur ti im cts sc sent job).job.currentChunk = totalChunksOf prep s ∧
      (uploadLoop net (fun _ => false) true prep s (totalChunksOf prep s)
          fuel cur ti im cts sc sent job).sent.map Prod.fst =
        sent.map Prod.fst ++ List.range' cur (totalChunksOf prep s + 1 - cur) ∧
      (uploadLoop net (fun _ => false) true prep s (totalChunksOf prep s)
          fuel cur ti im cts sc sent job).job.linesImported =
        ti + insertedRange net prep s cur (totalChunksOf prep s + 1 - cur) := by
  intro fuel
  induction fuel with
  | zero =>
    intro cur ti im cts sc sent job hfuel h1 h2 hok hinv
    omega
  | succ fuel ih =>
    intro cur ti im cts sc sent job hfuel h1 h2 hok hinv
    obtain ⟨a, b, io, hnet⟩ := hok cur (Nat.le_refl cur) h2
    obtain ⟨out, hout, hmore, hins, himaps⟩ :=
      uploadSingleChunk_ok_spec prep s im cts cur a b io (fun h => hinv (by omega))
    have hcins : out.inserted = chunkInserted net prep s cur := by
      unfold chunkInserted
      rw [hnet, hins]
    unfold uploadLoop
    rw [if_neg (by omega)]
    simp only [Bool.false_eq_true, if_false]
    rw [hnet, hout]
    dsimp only
    by_cases hcur : cur < totalChunksOf prep s
    · have hm : out.hasMore = true := by
        rw [hmore]
        simp [hcur]
      rw [hm]
      simp only [Bool.true_eq_false, if_false, Bool.true_eq_false, false_and, if_false]
      have hrec := ih (cur + 1) (ti + out.inserted) out.idMappings out.counts sc
        (sent ++ [(cur, out.request)])
        { job with
          currentChunk := cur
          status := .running
          progress := (200 * cur + totalChunksOf prep s) / (2 * totalChunksOf prep s)
          linesImported := ti + out.inserted }
        (by omega) (by omega) (by omega)
        (fun n hn1 hn2 => hok n (by omega) hn2)
        (fun _ => himaps.mpr (by
          by_cases hc1 : cur = 1
          · exact Or.inl hc1
          · exact Or.inr (hinv (by omega))))
      have he2 : totalChunksOf prep s + 1 - (cur + 1) = totalChunksOf prep s - cur := by omega
      rw [he2] at hrec
      refine ⟨hrec.1, hrec.2.1, ?_, ?_⟩
      · rw [hrec.2.2.1]
        have hr : List.range' cur (totalChunksOf prep s + 1 - cur) =
            cur :: List.range' (cur + 1) (totalChunksOf prep s - cur) := by
          have he : totalChunksOf prep s + 1 - cur = (totalChunksOf prep s - cur) + 1 := by
            omega
          rw [he, List.range'_succ]
        rw [hr]
        simp
      · rw [hrec.2.2.2, hcins]
        have hr : List.range' cur (totalChunksOf prep s + 1 - cur) =
            cur :: List.range' (cur + 1) (totalChunksOf prep s - cur) := by
          have he : totalChunksOf prep s + 1 - cur = (totalChunksOf prep s - cur) + 1 := by
            omega
          rw [he, List.range'_succ]
        unfold insertedRange
        rw [hr]
        simp only [List.map_cons, List.sum_cons]
        omega
    · have hceq : cur = totalChunksOf prep s := by omega
      have hm : out.hasMore = false := by
        rw [hmore]
        simp [hcur]
      rw [hm]
      simp only [eq_self_iff_true, if_true]
      refine ⟨by trivial, by trivial, ?_, ?_⟩
      · have hr : totalChunksOf prep s + 1 - cur = 1 := by omega
        rw [hr]
        simp [hceq]
      · have hr : totalChunksOf prep s + 1 - cur = 1 := by omega
        rw [hr, hcins]
        unfold insertedRange
        simp only [List.range'_one, List.map_cons, List.map_nil, List.sum_cons, List.sum_nil]
        omega

/-- When chunks `cur..N-1` get success responses and chunk `N`'s call
fails, the loop sends exactly `cur..N` (the failed chunk's request is
issued, nothing after it), ends `failed` with `currentChunk = N`, keeps
the counts accumulated before `N`, and retains the ID mappings built so
far. -/
theorem uploadLoop_fail (net : Nat → NetResponse) (prep : PreparedImportData) (s : Nat)
    (N : Nat) :
    ∀ (fuel cur ti : Nat) (im : Option IdMaps) (cts : UploadedCounts) (sc : Nat)
      (sent : List (Nat × RequestBody)) (job : ImportJob),
      fuel = totalChunksOf prep s + 1 - cur → 1 ≤ cur → cur ≤ N →
      N ≤ totalChunksOf prep s →
      (∀ n, cur ≤ n → n < N → isOkResp (net n)) →
      isFailResp (net N) →
      (1 < cur → im.isSome) →
      job.linesImported = ti →
      (uploadLoop net (fun _ => false) true prep s (totalChunksOf prep s)
          fuel cur ti im cts sc sent job).job.status = .failed ∧
      (uploadLoop net (fun _ => false) true prep s (totalChunksOf prep s)
          fuel cur ti im cts sc sent job).job.currentChunk = N ∧
      (uploadLoop net (fun _ => false) true prep s (totalChunksOf prep s)
          fuel cur ti im cts sc sent job).job.linesImported =
        ti + insertedRange net prep s cur (N - cur) ∧
      (uploadLoop net (fun _ => false) true prep s (totalChunksOf prep s)
          fuel cur ti im cts sc sent job).sent.map Prod.fst =
        sent.map Prod.fst ++ List.range' cur (N - cur + 1) ∧
      (((cur = 1 ∧ 1 < N) ∨ im.isSome = true) →
        (uploadLoop net (fun _ => false) true prep s (totalChunksOf prep s)
          fuel cur ti im cts sc sent job).idMappings.isSome = true) := by
  intro fuel
  induction fuel with
  | zero =>
    intro cur ti im cts sc sent job hfuel h1 h2 hN hok hfail hinv hjob
    omega
  | succ fuel ih =>
    intro cur ti im cts sc sent job hfuel h1 h2 hN hok hfail hinv hjob
    by_cases hcN : cur = N
    · obtain ⟨e, herr, hreq⟩ := uploadSingleChunk_fail_spec prep s im cts cur (net cur)
        (fun h => hinv (by omega)) (hcN ▸ hfail)
      unfold uploadLoop
      rw [if_neg (by omega)]
      simp only [Bool.false_eq_true, if_false]
      rw [herr]
      dsimp only
      obtain ⟨body, hbody⟩ := Option.isSome_iff_exists.mp hreq
      refine ⟨rfl, hcN, ?_, ?_, ?_⟩
      · have h0 : N - cur = 0 := by omega
        rw [h0]
        unfold insertedRange
        simp [hjob]
      · rw [hbody]
        have h0 : N - cur + 1 = 1 := by omega
        rw [h0]
        simp [hcN]
      · intro hpre
        rcases hpre with ⟨hc1, hN1⟩ | him
        · omega
        · exact him
    · have hcur : cur < N := by omega
      obtain ⟨a, b, io, hnet⟩ := hok cur (Nat.le_refl cur) hcur
      obtain ⟨out, hout, hmore, hins, himaps⟩ :=
        uploadSingleChunk_ok_spec prep s im cts cur a b io (fun h => hinv (by omega))
      have hcins : out.inserted = chunkInserted net prep s cur := by
        unfold chunkInserted
        rw [hnet, hins]
      unfold uploadLoop
      rw [if_neg (by omega)]
      simp only [Bool.false_eq_true, if_false]
      rw [hnet, hout]
      dsimp only
      have hm : out.hasMore = true := by
        rw [hmore]
        simp
        omega
      rw [hm]
      simp only [Bool.true_eq_false, if_false, false_and, if_false]
      have hrec := ih (cur + 1) (ti + out.inserted) out.idMappings out.counts sc
        (sent ++ [(cur, out.request)])
        { job with
          currentChunk := cur
          status := .running
          progress := (200 * cur + totalChunksOf prep s) / (2 * totalChunksOf prep s)
          linesImported := ti + out.inserted }
        (by omega) (by omega) (by omega) hN
        (fun n hn1 hn2 => hok n (by omega) hn2) hfail
        (fun _ => himaps.mpr (by
          by_cases hc1 : cur = 1
          · exact Or.inl hc1
          · exact Or.inr (hinv (by omega)))) rfl
      refine ⟨hrec.1, hrec.2.1, ?_, ?_, ?_⟩
      · rw [hrec.2.2.1, hcins]
        have hr : List.range' cur (N - cur) =
            cur :: List.range' (cur + 1) (N - (cur + 1)) := by
          have he : N - cur = (N - (cur + 1)) + 1 := by omega
          rw [he, List.range'_succ]
        unfold insertedRange
        rw [hr]
        simp only [List.map_cons, List.sum_cons]
        omega
      · rw [hrec.2.2.2.1]
        have hr : List.range' cur (N - cur + 1) =
            cur :: List.range' (cur + 1) (N - (cur + 1) + 1) := by
          have he : N - cur + 1 = (N - (cur + 1) + 1) + 1 := by omega
          rw [he, List.range'_succ]
        rw [hr]
        simp
      · intro hpre
        refine hrec.2.2.2.2 (Or.inr (himaps.mpr ?_))
        rcases hpre with ⟨hc1, hN1⟩ | him
        · exact Or.inl hc1
        · exact Or.inr him

/-- Starting the driver at a positive chunk number reduces to the loop
from that chunk. -/
theorem runChunkedUpload_eq (net : Nat → NetResponse) (abort : Nat → Bool)
    (autoUpload : Bool) (prep : PreparedImportData) (s : Nat) (job0 : ImportJob)
    (im0 : Option IdMaps) (cts0 : UploadedCounts) (sc0 fromChunk : Nat)
    (h : 0 < fromChunk) :
    runChunkedUpload net abort autoUpload prep s job0 im0 cts0 sc0 fromChunk =
      uploadLoop net abort autoUpload prep s (totalChunksOf prep s)
        (totalChunksOf prep s + 1 - fromChunk) fromChunk job0.linesImported im0
        (if fromChunk ≤ 1 then ⟨0, 0, 0, 0⟩ else cts0) sc0 []
        { job0 with
          jobId := "chunked"
          status := .running
          totalChunks := totalChunksOf prep s
          currentChunk := fromChunk
          linesImported := job0.linesImported } := by
  unfold runChunkedUpload
  dsimp only
  rw [if_pos h]

/-- Starting the driver fresh (`fromChunk = 0`) reduces to the loop
from chunk 1 with the counts reset. -/
theorem runChunkedUpload_zero_eq (net : Nat → NetResponse) (abort : Nat → Bool)
    (autoUpload : Bool) (prep : PreparedImportData) (s : Nat) (job0 : ImportJob)
    (im0 : Option IdMaps) (cts0 : UploadedCounts) (sc0 : Nat) :
    runChunkedUpload net abort autoUpload prep s job0 im0 cts0 sc0 0 =
      uploadLoop net abort autoUpload prep s (totalChunksOf prep s)
        (totalChunksOf prep s + 1 - 1) 1 job0.linesImported im0
        ⟨0, 0, 0, 0⟩ sc0 []
        { job0 with
          jobId := "chunked"
          status := .running
          totalChunks := totalChunksOf prep s
          currentChunk := 1
          linesImported := job0.linesImported } := by
  unfold runChunkedUpload
  dsimp only
  rw [if_neg (lt_irrefl 0), if_pos (by norm_num)]

/-- C3: when chunks `1..N-1` succeed and chunk `N`'s network call
throws or returns a non-success response, the fresh driver run stops
immediately after the failed send — the chunks it sent are exactly
`1..N` — with job status `failed`, `currentChunk = N`, the counts
accumulated for the chunks before `N` retained in `linesImported`, and
the ID mappings built by chunk 1 retained; re-invoking
`runChunkedUpload` with `fromChunk = N` and the retained state (under
responses that succeed from `N` on) sends exactly chunks
`N..totalChunks` — never re-sending chunks `1..N-1` — and completes. -/
theorem c3_failed_chunk_stops_and_resumes (net net' : Nat → NetResponse)
    (prep : PreparedImportData) (s : Nat) (N : Nat) (job0 : ImportJob)
    (cts0 : UploadedCounts) (sc0 : Nat)
    (hN1 : 1 ≤ N) (hN2 : N ≤ totalChunksOf prep s)
    (hok : ∀ n, 1 ≤ n → n < N → isOkResp (net n))
    (hbad : isFailResp (net N)) :
    (runChunkedUpload net (fun _ => false) true prep s job0 none cts0 sc0 0).job.status =
      .failed ∧
    (runChunkedUpload net (fun _ => false) true prep s job0 none cts0 sc0
        0).job.currentChunk = N ∧
    (runChunkedUpload net (fun _ => false) true prep s job0 none cts0 sc0
        0).job.linesImported =
      job0.linesImported + insertedRange net prep s 1 (N - 1) ∧
    (runChunkedUpload net (fun _ => false) true prep s job0 none cts0 sc0
        0).sent.map Prod.fst = List.range' 1 N ∧
    (1 < N → (runChunkedUpload net (fun _ => false) true prep s job0 none cts0 sc0
        0).idMappings.isSome = true) ∧
    (∀ (job1 : ImportJob) (im1 : Option IdMaps) (cts1 : UploadedCounts) (sc1 : Nat),
      (1 < N → im1.isSome = true) →
      (∀ n, N ≤ n → n ≤ totalChunksOf prep s → isOkResp (net' n)) →
      (runChunkedUpload net' (fun _ => false) true prep s job1 im1 cts1 sc1 N).job.status =
        .completed ∧
      (runChunkedUpload net' (fun _ => false) true prep s job1 im1 cts1 sc1
          N).sent.map Prod.fst = List.range' N (totalChunksOf prep s + 1 - N) ∧
      (∀ k ∈ (runChunkedUpload net' (fun _ => false) true prep s job1 im1 cts1 sc1
          N).sent.map Prod.fst, N ≤ k)) := by
  have hA := uploadLoop_fail net prep s N (totalChunksOf prep s + 1 - 1) 1
    job0.linesImported none ⟨0, 0, 0, 0⟩ sc0 []
    { job0 with
      jobId := "chunked"
      status := .running
      totalChunks := totalChunksOf prep s
      currentChunk := 1
      linesImported := job0.linesImported }
    rfl (Nat.le_refl 1) hN1 hN2 hok hbad (by omega) rfl
  rw [runChunkedUpload_zero_eq]
  refine ⟨hA.1, hA.2.1, hA.2.2.1, ?_, ?_, ?_⟩
  · rw [hA.2.2.2.1]
    have h0 : N - 1 + 1 = N := by omega
    rw [h0]
    simp
  · intro hN
    exact hA.2.2.2.2 (Or.inl ⟨rfl, hN⟩)
  · intro job1 im1 cts1 sc1 him1 hok'
    have hB := uploadLoop_success net' prep s (totalChunksOf prep s + 1 - N) N
      job1.linesImported im1 (if N ≤ 1 then ⟨0, 0, 0, 0⟩ else cts1) sc1 []
      { job1 with
        jobId := "chunked"
        status := .running
        totalChunks := totalChunksOf prep s
        currentChunk := N
        linesImported := job1.linesImported }
      rfl hN1 hN2 hok' him1
    rw [runChunkedUpload_eq net' (fun _ => false) true prep s job1 im1 cts1 sc1 N
      (by omega)]
    refine ⟨hB.1, ?_, ?_⟩
    · rw [hB.2.2.1]
      simp
    · intro k hk
      rw [hB.2.2.1] at hk
      simp only [List.map_nil, List.nil_append] at hk
      exact (List.mem_range'_1.mp hk).1

/-- Witness for C3 on `prepW` at chunk size 5 (three chunks): a network
error on chunk 2 fails the run with `currentChunk = 2` after sending
exactly chunks 1 and 2. -/
theorem c3_failed_chunk_stops_and_resumes_witness :
    (runChunkedUpload c3NetW (fun _ => false) true prepW 5 pendingImportJob none
        ⟨0, 0, 0, 0⟩ 0 0).job.status = .failed ∧
    (runChunkedUpload c3NetW (fun _ => false) true prepW 5 pendingImportJob none
        ⟨0, 0, 0, 0⟩ 0 0).job.currentChunk = 2 ∧
    (runChunkedUpload c3NetW (fun _ => false) true prepW 5 pendingImportJob none
        ⟨0, 0, 0, 0⟩ 0 0).sent.map Prod.fst = List.range' 1 2 := by
  have h := c3_failed_chunk_stops_and_resumes c3NetW c3NetW prepW 5 2 pendingImportJob
    ⟨0, 0, 0, 0⟩ 0 (by norm_num) (by decide)
    (fun n h1 h2 => by
      have hn : n = 1 := by omega
      subst hn
      exact ⟨[], [], none, rfl⟩)
    (Or.inr ⟨"network error", rfl⟩)
  exact ⟨h.1, h.2.1, h.2.2.2.1⟩

/-- Witness for C10: starting at the filing chunk 3 of `prepW` (chunk
size 5) with no mappings fails with the fixed message and sends
nothing. -/
theorem c10_filing_chunk_without_mappings_witness :
    (runChunkedUpload c3NetW (fun _ => false) true prepW 5 pendingImportJob none
        ⟨0, 0, 0, 0⟩ 0 3).job.status = .failed ∧
    (runChunkedUpload c3NetW (fun _ => false) true prepW 5 pendingImportJob none
        ⟨0, 0, 0, 0⟩ 0 3).job.error =
      some "ID mappings not available - run chunk 1 first" ∧
    (runChunkedUpload c3NetW (fun _ => false) true prepW 5 pendingImportJob none
        ⟨0, 0, 0, 0⟩ 0 3).sent = [] := by
  have h := c10_filing_chunk_without_mappings c3NetW true prepW 5 pendingImportJob
    ⟨0, 0, 0, 0⟩ 0 3 (by decide) (by decide)
  exact ⟨h.1, h.2.1, h.2.2.2⟩

/-! ## Date round trip (C5): parsing the encoded date -/

theorem digitChar_isDigit {k : Nat} (h : k < 10) : (Nat.digitChar k).isDigit = true := by
  interval_cases k <;> decide

theorem digitChar_not_ws {k : Nat} (h : k < 10) :
    (Nat.digitChar k).isWhitespace = false := by
  interval_cases k <;> decide

theorem digitChar_beq_dash {k : Nat} (h : k < 10) : (Nat.digitChar k == '-') = false := by
  interval_cases k <;> decide

theorem digitChar_beq_plus {k : Nat} (h : k < 10) : (Nat.digitChar k == '+') = false := by
  interval_cases k <;> decide

theorem digitChar_toNat {k : Nat} (h : k < 10) : (Nat.digitChar k).toNat = 48 + k := by
  interval_cases k <;> decide

theorem encodeYYYYMMDD_data (dt : CalDate) :
    (encodeYYYYMMDD dt).data =
      [Nat.digitChar (dt.year.toNat / 1000 % 10), Nat.digitChar (dt.year.toNat / 100 % 10),
       Nat.digitChar (dt.year.toNat / 10 % 10), Nat.digitChar (dt.year.toNat % 10),
       Nat.digitChar (dt.month.toNat / 10 % 10), Nat.digitChar (dt.month.toNat % 10),
       Nat.digitChar (dt.day.toNat / 10 % 10), Nat.digitChar (dt.day.toNat % 10)] := rfl

theorem jsSubstring_8_04 (c0 c1 c2 c3 c4 c5 c6 c7 : Char) :
    jsSubstring (String.mk [c0, c1, c2, c3, c4, c5, c6, c7]) 0 4 =
      String.mk [c0, c1, c2, c3] := rfl

theorem jsSubstring_8_46 (c0 c1 c2 c3 c4 c5 c6 c7 : Char) :
    jsSubstring (String.mk [c0, c1, c2, c3, c4, c5, c6, c7]) 4 6 =
      String.mk [c4, c5] := rfl

theorem jsSubstring_8_68 (c0 c1 c2 c3 c4 c5 c6 c7 : Char) :
    jsSubstring (String.mk [c0, c1, c2, c3, c4, c5, c6, c7]) 6 8 =
      String.mk [c6, c7] := rfl

theorem jsParseInt_digitChar4 (a b c d : Nat) (ha : a < 10) (hb : b < 10) (hc : c < 10)
    (hd : d < 10) :
    jsParseInt (String.mk [Nat.digitChar a, Nat.digitChar b, Nat.digitChar c,
      Nat.digitChar d]) = some ((1000 * a + 100 * b + 10 * c + d : Nat) : Int) := by
  unfold jsParseInt
  dsimp only
  simp only [List.dropWhile_cons, digitChar_not_ws ha, Bool.false_eq_true, if_false,
    digitChar_beq_dash ha, digitChar_beq_plus ha, Bool.false_or, List.takeWhile_cons,
    digitChar_isDigit ha, digitChar_isDigit hb, digitChar_isDigit hc, digitChar_isDigit hd,
    if_true, List.takeWhile_nil, reduceCtorEq]
  unfold digitsNatVal
  simp only [List.foldl_cons, List.foldl_nil, digitChar_toNat ha, digitChar_toNat hb,
    digitChar_toNat hc, digitChar_toNat hd]
  congr 1
  push_cast
  omega

theorem jsParseInt_digitChar2 (a b : Nat) (ha : a < 10) (hb : b < 10) :
    jsParseInt (String.mk [Nat.digitChar a, Nat.digitChar b]) =
      some ((10 * a + b : Nat) : Int) := by
  unfold jsParseInt
  dsimp only
  simp only [List.dropWhile_cons, digitChar_not_ws ha, Bool.false_eq_true, if_false,
    digitChar_beq_dash ha, digitChar_beq_plus ha, Bool.false_or, List.takeWhile_cons,
    digitChar_isDigit ha, digitChar_isDigit hb, if_true, List.takeWhile_nil, reduceCtorEq]
  unfold digitsNatVal
  simp only [List.foldl_cons, List.foldl_nil, digitChar_toNat ha, digitChar_toNat hb]
  congr 1
  push_cast
  omega

/-- Parsing the 8-digit encoding of an in-range date recovers the
`Date.UTC` day value the source computes for it. -/
theorem dateToDays_encode (y m d : Int) (hy1 : 1000 ≤ y) (hy2 : y ≤ 9999)
    (hm1 : 1 ≤ m) (hm2 : m ≤ 99) (hd1 : 1 ≤ d) (hd2 : d ≤ 99) :
    dateToDays (encodeYYYYMMDD ⟨y, m, d⟩) = some (dateUTCDays y (m - 1) d) := by
  have hy0 : (0 : Int) ≤ y := by omega
  have hm0 : (0 : Int) ≤ m := by omega
  have hd0 : (0 : Int) ≤ d := by omega
  have hsy : encodeYYYYMMDD ⟨y, m, d⟩ = String.mk
      [Nat.digitChar (y.toNat / 1000 % 10), Nat.digitChar (y.toNat / 100 % 10),
       Nat.digitChar (y.toNat / 10 % 10), Nat.digitChar (y.toNat % 10),
       Nat.digitChar (m.toNat / 10 % 10), Nat.digitChar (m.toNat % 10),
       Nat.digitChar (d.toNat / 10 % 10), Nat.digitChar (d.toNat % 10)] := rfl
  unfold dateToDays
  rw [hsy, jsSubstring_8_04, jsSubstring_8_46, jsSubstring_8_68,
    jsParseInt_digitChar4 _ _ _ _ (Nat.mod_lt _ (by norm_num)) (Nat.mod_lt _ (by norm_num))
      (Nat.mod_lt _ (by norm_num)) (Nat.mod_lt _ (by norm_num)),
    jsParseInt_digitChar2 _ _ (Nat.mod_lt _ (by norm_num)) (Nat.mod_lt _ (by norm_num)),
    jsParseInt_digitChar2 _ _ (Nat.mod_lt _ (by norm_num)) (Nat.mod_lt _ (by norm_num))]
  have hyv : ((1000 * (y.toNat / 1000 % 10) + 100 * (y.toNat / 100 % 10) +
      10 * (y.toNat / 10 % 10) + y.toNat % 10 : Nat) : Int) = y := by
    have h9 : y.toNat ≤ 9999 := by omega
    have hv : 1000 * (y.toNat / 1000 % 10) + 100 * (y.toNat / 100 % 10) +
        10 * (y.toNat / 10 % 10) + y.toNat % 10 = y.toNat := by omega
    rw [hv]
    exact Int.toNat_of_nonneg hy0
  have hmv : ((10 * (m.toNat / 10 % 10) + m.toNat % 10 : Nat) : Int) = m := by
    have h9 : m.toNat ≤ 99 := by omega
    have hv : 10 * (m.toNat / 10 % 10) + m.toNat % 10 = m.toNat := by omega
    rw [hv]
    exact Int.toNat_of_nonneg hm0
  have hdv : ((10 * (d.toNat / 10 % 10) + d.toNat % 10 : Nat) : Int) = d := by
    have h9 : d.toNat ≤ 99 := by omega
    have hv : 10 * (d.toNat / 10 % 10) + d.toNat % 10 = d.toNat := by omega
    rw [hv]
    exact Int.toNat_of_nonneg hd0
  rw [hyv, hmv, hdv]

/-! ## Date round trip (C5): calendar arithmetic -/

theorem leapYear_iff (y : Int) :
    leapYear y = true ↔ (y % 4 = 0 ∧ (y % 100 ≠ 0 ∨ y % 400 = 0)) := by
  unfold leapYear
  split <;> simp_all

theorem dayFromYear_succ (y : Int) :
    dayFromYear (y + 1) = dayFromYear y + 365 +
      (if leapYear y = true then 1 else 0) := by
  by_cases h : leapYear y = true
  · rw [if_pos h]
    rw [leapYear_iff] at h
    unfold dayFromYear
    omega
  · rw [if_neg h]
    rw [leapYear_iff] at h
    unfold dayFromYear
    omega

theorem dayFromYear_mono {a b : Int} (h : a ≤ b) : dayFromYear a ≤ dayFromYear b := by
  unfold dayFromYear
  omega

/-- For years ≥ 100 (no two-digit fixup) and a 1-based month in range,
`dateUTCDays` is the plain `MakeDay` value `calDaysOf`. -/
theorem dateUTCDays_valid_eq (dt : CalDate) (hy : 100 ≤ dt.year)
    (hm1 : 1 ≤ dt.month) (hm2 : dt.month ≤ 12) :
    dateUTCDays dt.year (dt.month - 1) dt.day = calDaysOf dt := by
  unfold dateUTCDays calDaysOf
  have h99 : ¬ (0 ≤ dt.year ∧ dt.year ≤ 99) := by omega
  rw [if_neg h99]
  have hdiv : (dt.month - 1) / 12 = 0 := by omega
  have hmod : (dt.month - 1) % 12 = dt.month - 1 := by omega
  rw [hdiv, hmod]
  dsimp only
  rw [add_zero]

/-- Day-of-year bounds for a valid date: the month offset plus the day
stays within the year's length. -/
theorem dayOfYear_bounds (dt : CalDate) (h : validCalDate dt) :
    0 ≤ monthStart (leapYear dt.year) (dt.month - 1).toNat + dt.day - 1 ∧
    monthStart (leapYear dt.year) (dt.month - 1).toNat + dt.day - 1 ≤
      364 + (if leapYear dt.year = true then 1 else 0) := by
  obtain ⟨y, m, d⟩ := dt
  obtain ⟨hm1, hm2, hd1, hd2⟩ := h
  dsimp only at hm1 hm2 hd1 hd2 ⊢
  cases hlp : leapYear y <;> rw [hlp] at hd2 <;>
    interval_cases m <;>
    simp_all [monthStart, monthStartBase, daysInMonth] <;> omega

/-- One calendar step: `nextDay` preserves validity, moves the year by
at most one, and increments the `MakeDay` value by exactly one. -/
theorem calDaysOf_nextDay (dt : CalDate) (h : validCalDate dt) :
    calDaysOf (nextDay dt) = calDaysOf dt + 1 ∧ validCalDate (nextDay dt) ∧
    dt.year ≤ (nextDay dt).year ∧ (nextDay dt).year ≤ dt.year + 1 := by
  obtain ⟨y, m, d⟩ := dt
  obtain ⟨hm1, hm2, hd1, hd2⟩ := h
  dsimp only at hm1 hm2 hd1 hd2
  unfold nextDay
  dsimp only
  by_cases hlt : d < daysInMonth (leapYear y) m
  · rw [if_pos hlt]
    refine ⟨?_, ⟨?_, ?_, ?_, ?_⟩, ?_, ?_⟩ <;>
      first
        | (unfold calDaysOf; dsimp only; omega)
        | (dsimp only; omega)
  · rw [if_neg hlt]
    have hdeq : d = daysInMonth (leapYear y) m := by omega
    by_cases hm12 : m < 12
    · rw [if_pos hm12]
      subst hdeq
      refine ⟨?_, ⟨?_, ?_, ?_, ?_⟩, ?_, ?_⟩
      · unfold calDaysOf
        dsimp only
        cases hlp : leapYear y <;>
          interval_cases m <;>
          simp_all [monthStart, monthStartBase, daysInMonth] <;> omega
      · dsimp only
        omega
      · dsimp only
        omega
      · dsimp only
        omega
      · dsimp only
        cases hlp : leapYear y <;>
          interval_cases m <;>
          norm_num [daysInMonth, hlp]
      · dsimp only
        omega
      · dsimp only
        omega
    · rw [if_neg hm12]
      have hmeq : m = 12 := by omega
      subst hmeq
      have hd31 : d = 31 := by
        unfold daysInMonth at hdeq
        norm_num at hdeq
        omega
      subst hd31
      refine ⟨?_, ⟨?_, ?_, ?_, ?_⟩, ?_, ?_⟩
      · unfold calDaysOf
        dsimp only
        have hsucc := dayFromYear_succ y
        cases hlp : leapYear y <;> rw [hlp] at hsucc <;>
          simp_all [monthStart, monthStartBase] <;> omega
      · dsimp only
        omega
      · dsimp only
        omega
      · dsimp only
        omega
      · dsimp only
        norm_num [daysInMonth]
      · dsimp only
        omega
      · dsimp only
        omega

/-- The iterated successor of the epoch is always a valid date at or
after 1970 whose `MakeDay` value is the iteration count. -/
theorem dayCountToDate_spec (n : Nat) :
    validCalDate (dayCountToDate n) ∧ 1970 ≤ (dayCountToDate n).year ∧
    calDaysOf (dayCountToDate n) = (n : Int) := by
  induction n with
  | zero =>
    refine ⟨⟨?_, ?_, ?_, ?_⟩, ?_, ?_⟩ <;> (unfold dayCountToDate; decide)
  | succ n ih =>
    obtain ⟨hv, hy, hc⟩ := ih
    obtain ⟨hstep, hv', hy1, hy2⟩ := calDaysOf_nextDay (dayCountToDate n) hv
    rw [show dayCountToDate (n + 1) = nextDay (dayCountToDate n) from rfl]
    refine ⟨hv', by omega, ?_⟩
    rw [hstep, hc]
    push_cast
    ring

/-! ## Date round trip (C5): bounds and injectivity -/

theorem daysInMonth_le_31 (lp : Bool) (m : Int) : daysInMonth lp m ≤ 31 := by
  unfold daysInMonth
  split
  · split <;> norm_num
  · split <;> norm_num

theorem calDaysOf_bounds (dt : CalDate) (h : validCalDate dt) :
    dayFromYear dt.year ≤ calDaysOf dt ∧ calDaysOf dt < dayFromYear (dt.year + 1) := by
  have hdoy := dayOfYear_bounds dt h
  have hsucc := dayFromYear_succ dt.year
  unfold calDaysOf
  cases hlp : leapYear dt.year <;> rw [hlp] at hdoy hsucc <;>
    simp only [Bool.false_eq_true, eq_self_iff_true, if_false, if_true] at hdoy hsucc <;>
    omega

theorem dayFromYear_le_2100 {y : Int} (h1 : 1970 ≤ y) (h2 : y ≤ 2100) :
    dayFromYear y ≤ 47482 := by
  unfold dayFromYear
  omega

theorem year_le_of_calDaysOf_le (dt : CalDate) (h : validCalDate dt)
    (_hy : 1970 ≤ dt.year) (hle : calDaysOf dt ≤ 47482) : dt.year ≤ 2100 := by
  have hb := (calDaysOf_bounds dt h).1
  unfold dayFromYear at hb
  omega

theorem monthStart_interval : ∀ (lp : Bool) (i : Fin 12),
    monthStart lp i.val + daysInMonth lp ((i.val : Int) + 1) = monthStart lp (i.val + 1) := by
  decide

theorem monthStart_mono13 : ∀ (lp : Bool) (a b : Fin 13), a.val ≤ b.val →
    monthStart lp a.val ≤ monthStart lp b.val := by
  decide

theorem monthStart_day_le (lp : Bool) (m dd : Int) (hm1 : 1 ≤ m) (hm2 : m ≤ 12)
    (hdd : dd ≤ daysInMonth lp m) :
    monthStart lp (m - 1).toNat + dd ≤ monthStart lp m.toNat := by
  have h := monthStart_interval lp ⟨(m - 1).toNat, by omega⟩
  dsimp only at h
  have hc1 : (((m - 1).toNat : Nat) : Int) + 1 = m := by omega
  have hc2 : (m - 1).toNat + 1 = m.toNat := by omega
  rw [hc2] at h
  rw [hc1] at h
  omega

theorem monthStart_mono' (lp : Bool) (a b : Nat) (hb : b ≤ 12) (h : a ≤ b) :
    monthStart lp a ≤ monthStart lp b :=
  monthStart_mono13 lp ⟨a, by omega⟩ ⟨b, by omega⟩ h

theorem calDaysOf_inj (d1 d2 : CalDate) (h1 : validCalDate d1) (h2 : validCalDate d2)
    (heq : calDaysOf d1 = calDaysOf d2) : d1 = d2 := by
  have hb1 := calDaysOf_bounds d1 h1
  have hb2 := calDaysOf_bounds d2 h2
  have hyy : d1.year = d2.year := by
    by_contra hne
    rcases lt_or_gt_of_ne hne with hlt | hgt
    · have hm := dayFromYear_mono (show d1.year + 1 ≤ d2.year by omega)
      omega
    · have hm := dayFromYear_mono (show d2.year + 1 ≤ d1.year by omega)
      omega
  obtain ⟨y1, m1, dd1⟩ := d1
  obtain ⟨y2, m2, dd2⟩ := d2
  dsimp only at hyy
  subst hyy
  obtain ⟨hm11, hm12, hd11, hd12⟩ := h1
  obtain ⟨hm21, hm22, hd21, hd22⟩ := h2
  unfold calDaysOf at heq
  dsimp only at heq hm11 hm12 hd11 hd12 hm21 hm22 hd21 hd22 ⊢
  simp only [CalDate.mk.injEq, true_and]
  have hkey : ∀ ma da mb db : Int, 1 ≤ ma → ma ≤ 12 → 1 ≤ da →
      da ≤ daysInMonth (leapYear y1) ma → 1 ≤ mb → mb ≤ 12 → 1 ≤ db → ma < mb →
      monthStart (leapYear y1) (ma - 1).toNat + da - 1 <
        monthStart (leapYear y1) (mb - 1).toNat + db - 1 := by
    intro ma da mb db ha1 ha2 ha3 ha4 hb1' hb2' hb3' hab
    have hu := monthStart_day_le (leapYear y1) ma da ha1 ha2 ha4
    have hv := monthStart_mono' (leapYear y1) ma.toNat (mb - 1).toNat (by omega) (by omega)
    omega
  rcases lt_trichotomy m1 m2 with hlt | hmeq | hgt
  · have := hkey m1 dd1 m2 dd2 hm11 hm12 hd11 hd12 hm21 hm22 hd21 hlt
    omega
  · subst hmeq
    exact ⟨rfl, by omega⟩
  · have := hkey m2 dd2 m1 dd1 hm21 hm22 hd21 hd22 hm11 hm12 hd11 hgt
    omega

/-- C5: for every calendar date between 1970-01-01 and 2100-01-01,
encoding it as an 8-digit `YYYYMMDD` string and applying `dateToDays`
yields the (non-negative) number of days since 1970-01-01 UTC, and the
day-count-to-date conversion maps that count back to the original
year, month and day; conversely `dateToDays ∘ encode ∘ dayCountToDate`
is the identity on the day counts of the range, so `dateToDays` is a
left inverse of the day-count-to-date conversion. -/
theorem c5_dateToDays_left_inverse :
    (∀ n : Nat, n ≤ 47482 →
      dateToDays (encodeYYYYMMDD (dayCountToDate n)) = some (n : Int)) ∧
    (∀ dt : CalDate, validCalDate dt → calDateLE ⟨1970, 1, 1⟩ dt →
      calDateLE dt ⟨2100, 1, 1⟩ →
      ∃ k : Nat, k ≤ 47482 ∧ dateToDays (encodeYYYYMMDD dt) = some (k : Int) ∧
        dayCountToDate k = dt) := by
  constructor
  · intro n hn
    obtain ⟨hv, hy1970, hc⟩ := dayCountToDate_spec n
    have hle : calDaysOf (dayCountToDate n) ≤ 47482 := by
      rw [hc]
      exact_mod_cast hn
    have hy2100 : (dayCountToDate n).year ≤ 2100 :=
      year_le_of_calDaysOf_le _ hv hy1970 hle
    have hm1 := hv.1
    have hm2 := hv.2.1
    have hd1 := hv.2.2.1
    have hd31 : (dayCountToDate n).day ≤ 31 :=
      le_trans hv.2.2.2 (daysInMonth_le_31 _ _)
    have henc : dateToDays (encodeYYYYMMDD (dayCountToDate n)) =
        some (dateUTCDays (dayCountToDate n).year ((dayCountToDate n).month - 1)
          (dayCountToDate n).day) :=
      dateToDays_encode _ _ _ (by omega) (by omega) (by omega) (by omega) (by omega)
        (by omega)
    rw [henc, dateUTCDays_valid_eq _ (by omega) hm1 hm2, hc]
  · intro dt hv hge hle
    unfold calDateLE at hge hle
    dsimp only at hge hle
    have hm1 := hv.1
    have hm2 := hv.2.1
    have hd1 := hv.2.2.1
    have hd31 : dt.day ≤ 31 := le_trans hv.2.2.2 (daysInMonth_le_31 _ _)
    have hy1 : 1970 ≤ dt.year := by rcases hge with h | ⟨h, _⟩ <;> omega
    have hy2 : dt.year ≤ 2100 := by rcases hle with h | ⟨h, _⟩ <;> omega
    have hub : calDaysOf dt ≤ 47482 := by
      by_cases hz : dt.year = 2100
      · have hmd : dt.month = 1 ∧ dt.day = 1 := by
          rcases hle with h | ⟨h, hmd⟩
          · omega
          · rcases hmd with h2 | ⟨h2, h3⟩
            · omega
            · omega
        unfold calDaysOf
        rw [hz, hmd.1, hmd.2]
        decide
      · have hb := (calDaysOf_bounds dt hv).2
        have hm := dayFromYear_mono (show dt.year + 1 ≤ 2100 by omega)
        have h2100 : dayFromYear 2100 = 47482 := by decide
        omega
    have hlb : 0 ≤ calDaysOf dt := by
      have hb := (calDaysOf_bounds dt hv).1
      have h0 : dayFromYear 1970 = 0 := by decide
      have hm := dayFromYear_mono hy1
      omega
    refine ⟨(calDaysOf dt).toNat, by omega, ?_, ?_⟩
    · have henc : dateToDays (encodeYYYYMMDD dt) =
          some (dateUTCDays dt.year (dt.month - 1) dt.day) :=
        dateToDays_encode _ _ _ (by omega) (by omega) (by omega) (by omega) (by omega)
          (by omega)
      rw [henc, dateUTCDays_valid_eq dt (by omega) hm1 hm2, Int.toNat_of_nonneg hlb]
    · obtain ⟨hv', hy', hc'⟩ := dayCountToDate_spec (calDaysOf dt).toNat
      apply calDaysOf_inj _ _ hv' hv
      rw [hc', Int.toNat_of_nonneg hlb]

/-- Witness for C5: day 59 round-trips through encode and decode, and
2024-01-15 decodes to a day count that converts back to it. -/
theorem c5_dateToDays_left_inverse_witness :
    dateToDays (encodeYYYYMMDD (dayCountToDate 59)) = some 59 ∧
    (∃ k : Nat, k ≤ 47482 ∧
      dateToDays (encodeYYYYMMDD ⟨2024, 1, 15⟩) = some (k : Int) ∧
      dayCountToDate k = ⟨2024, 1, 15⟩) :=
  ⟨c5_dateToDays_left_inverse.1 59 (by norm_num),
   c5_dateToDays_left_inverse.2 ⟨2024, 1, 15⟩
     (by unfold validCalDate; decide)
     (by unfold calDateLE; decide)
     (by unfold calDateLE; decide)⟩

/-- C9: the two-line scenario input yields exactly one filing record
with `cik = 1000275`, form-type local ID 1 for code `10-K`, filed date
19737 — the number of days from 1970-01-01 to 2024-01-15 — accession
filer 950103, sequence 123, and extension local ID 1 for `txt`. -/
theorem c9_scenario_record :
    (processFile none c9Content).records = [⟨1000275, 1, some 19737, 950103, 123, 1⟩] ∧
    (processFile none c9Content).formTypes = [("10-K", 1)] ∧
    (processFile none c9Content).extensions = [("txt", 1)] ∧
    (processFile none c9Content).companies = [(1000275, "ACME CORP")] ∧
    dayCountToDate 19737 = ⟨2024, 1, 15⟩ := by
  refine ⟨by decide, by decide, by decide, by decide, ?_⟩
  obtain ⟨hv, hy, hc⟩ := dayCountToDate_spec 19737
  have hvd : validCalDate ⟨2024, 1, 15⟩ := by
    unfold validCalDate
    decide
  apply calDaysOf_inj _ _ hv hvd
  rw [hc]
  decide
